import Mathlib

set_option maxRecDepth 20000

/-!
# Voran deterministic resolution engine — verification of spec claims

Shallow embedding of the Voran resolver core (TypeScript sources under
`src/resolver` and `src/ai`, plus the Solidity verifier
`contracts/src/VoranOracle.sol`) and proofs settling the frozen claims.

Modelling conventions:
* JavaScript numbers (IEEE-754 doubles) are modelled by `JsNum`:
  `NaN`, signed infinity, or a finite value represented exactly as a
  decimal `m * 10^e` (`Dec`).  All numeric values the resolver produces
  are decimal literals or sums/differences of them, so this
  representation is closed under the operations the code performs;
  arithmetic is exact where a double would round, and the
  overflow-to-infinity threshold is `2^1024`.  Every concrete input the
  claims exercise is a value on which this model and double arithmetic
  agree exactly.
* JavaScript strings are Lean `String`s; byte-level encodings are
  explicit `List Nat` byte sequences.
* Fallible TypeScript code (functions that `throw`) is embedded in
  `Except String`.
-/

/-- Exact decimal number `m * 10^e` (model of the finite doubles the
resolver manipulates: decimal literals and their sums/differences). -/
structure Dec where
  m : Int
  e : Int
deriving DecidableEq, Repr

namespace Dec

/-- Rewrite two decimals to a common exponent and return the two scaled
mantissas (comparison-safe because `10^k > 0`). -/
def toSameScale (a b : Dec) : Int × Int :=
  if a.e ≥ b.e then (a.m * 10 ^ (a.e - b.e).toNat, b.m)
  else (a.m, b.m * 10 ^ (b.e - a.e).toNat)

/-- Exact value comparison `<`. -/
def ltB (a b : Dec) : Bool :=
  decide ((toSameScale a b).1 < (toSameScale a b).2)

/-- Exact value equality. -/
def eqB (a b : Dec) : Bool :=
  decide ((toSameScale a b).1 = (toSameScale a b).2)

/-- Exact addition. -/
def add (a b : Dec) : Dec :=
  if a.e ≥ b.e then ⟨a.m * 10 ^ (a.e - b.e).toNat + b.m, b.e⟩
  else ⟨a.m + b.m * 10 ^ (b.e - a.e).toNat, a.e⟩

/-- Negation. -/
def neg (a : Dec) : Dec := ⟨-a.m, a.e⟩

/-- Exact subtraction. -/
def sub (a b : Dec) : Dec := add a (neg b)

/-- Is `|a| ≥ bound` (used for the double overflow threshold)? -/
def absGe (a : Dec) (bound : Nat) : Bool :=
  if a.e ≥ 0 then decide (a.m.natAbs * 10 ^ a.e.toNat ≥ bound)
  else decide (a.m.natAbs ≥ bound * 10 ^ (-a.e).toNat)

end Dec

/-- Model of a JavaScript number: NaN, ±Infinity, or a finite value.
`inf true` is `+Infinity`. -/
inductive JsNum where
  | nan : JsNum
  | inf : Bool → JsNum
  | fin : Dec → JsNum
deriving DecidableEq, Repr

namespace JsNum

/-- `isNaN` test on a modelled JS number. -/
def isNaN : JsNum → Bool
  | nan => true
  | _ => false

/-- Clamp an exact decimal into the double range, overflowing to the
signed infinity as IEEE-754 does beyond `2^1024` (threshold
approximated; no claim input sits at the boundary). -/
def clamp (d : Dec) : JsNum :=
  if Dec.absGe d (2 ^ 1024) then inf (decide (d.m > 0)) else fin d

/-- JS unary negation. -/
def neg : JsNum → JsNum
  | nan => nan
  | inf s => inf (!s)
  | fin d => fin (Dec.neg d)

/-- JS addition semantics (`NaN` absorbs; opposite infinities give `NaN`). -/
def add : JsNum → JsNum → JsNum
  | nan, _ => nan
  | _, nan => nan
  | inf s, inf t => if s = t then inf s else nan
  | inf s, fin _ => inf s
  | fin _, inf t => inf t
  | fin a, fin b => clamp (Dec.add a b)

/-- JS subtraction semantics. -/
def sub (a b : JsNum) : JsNum := add a (neg b)

/-- JS `<` comparison (`false` whenever either side is `NaN`). -/
def lt : JsNum → JsNum → Bool
  | nan, _ => false
  | _, nan => false
  | inf s, inf t => !s && t
  | inf s, fin _ => !s
  | fin _, inf t => t
  | fin a, fin b => Dec.ltB a b

/-- JS `>` comparison (`false` whenever either side is `NaN`). -/
def gt (a b : JsNum) : Bool := lt b a

/-- JS strict equality `===` on numbers (`NaN === NaN` is `false`;
value equality, independent of decimal representation). -/
def eqJs : JsNum → JsNum → Bool
  | nan, _ => false
  | _, nan => false
  | inf s, inf t => s = t
  | fin a, fin b => Dec.eqB a b
  | _, _ => false

end JsNum

/-- Left-pad a string with zeros to the given length (used to render the
fractional part of a decimal expansion). -/
def padZeros (s : String) (k : Nat) : String :=
  String.mk (List.replicate (k - s.length) '0') ++ s

/-- Strip factors of ten from a mantissa into the exponent (fuelled;
4000 steps covers every value arising from the resolver). -/
def stripTrailingZeros : Nat → Int → Int → Int × Int
  | 0, m, e => (m, e)
  | fuel + 1, m, e =>
      if m ≠ 0 ∧ m % 10 = 0 then stripTrailingZeros fuel (m / 10) (e + 1)
      else (m, e)

/-- Decimal rendering of a `Dec` value: plain decimal notation with no
trailing fractional zeros.  Agrees with JS number-to-string on every
value these claims exercise (JS switches to exponent notation only
outside `[1e-6, 1e21)`, which no claim input reaches). -/
def renderDec (d : Dec) : String :=
  if d.m = 0 then "0"
  else
    let s := stripTrailingZeros 4000 d.m d.e
    let sign := if s.1 < 0 then "-" else ""
    let n := s.1.natAbs
    if s.2 ≥ 0 then sign ++ toString (n * 10 ^ s.2.toNat)
    else
      let k := (-s.2).toNat
      let p : Nat := 10 ^ k
      if n ≥ p then
        sign ++ toString (n / p) ++ "." ++ padZeros (toString (n % p)) k
      else sign ++ "0." ++ padZeros (toString n) k

/-- Model of JS `Number.prototype.toString` (base 10). -/
def jsNumToString : JsNum → String
  | JsNum.nan => "NaN"
  | JsNum.inf true => "Infinity"
  | JsNum.inf false => "-Infinity"
  | JsNum.fin d => renderDec d

/-- Digits of a decimal character run as a natural number. -/
def digitsToNat (ds : List Char) : Nat :=
  ds.foldl (fun a c => 10 * a + (c.toNat - 48)) 0

/-- JS whitespace (the characters `parseFloat` and `Number` skip). -/
def isJsWhitespace (c : Char) : Bool :=
  c = ' ' || c = '\t' || c = '\n' || c = '\r' ||
  c = Char.ofNat 11 || c = Char.ofNat 12 || c = Char.ofNat 160

/-- Consume an optional sign; returns (isNegative, rest). -/
def parseSign : List Char → (Bool × List Char)
  | '-' :: rest => (true, rest)
  | '+' :: rest => (false, rest)
  | cs => (false, cs)

/-- Parse an optional exponent part `e`/`E` sign digits; returns the
signed exponent and the rest, backtracking (exponent 0, input unchanged)
when no well-formed exponent follows — exactly the longest-valid-prefix
rule of JS `parseFloat`. -/
def parseExponent (cs : List Char) : (Int × List Char) :=
  match cs with
  | e :: rest =>
      if e = 'e' || e = 'E' then
        let s := parseSign rest
        let eds := s.2.takeWhile Char.isDigit
        if eds.isEmpty then (0, cs)
        else ((if s.1 then -(digitsToNat eds : Int) else (digitsToNat eds : Int)),
              s.2.drop eds.length)
      else (0, cs)
  | [] => (0, cs)

/-- Parse the longest `StrUnsignedDecimalLiteral` prefix after the sign:
`Infinity`, or digits with optional fraction and exponent.  Returns
`none` when no numeric prefix exists (JS `parseFloat` then yields
`NaN`).  The decimal returned is the exact value of the parsed
literal. -/
def parseDecimalLiteral (cs : List Char) : Option JsNum :=
  if "Infinity".data.isPrefixOf cs then some (JsNum.inf true)
  else
    let intDs := cs.takeWhile Char.isDigit
    let rest1 := cs.drop intDs.length
    let fracDs :=
      match rest1 with
      | '.' :: tl => tl.takeWhile Char.isDigit
      | _ => []
    let rest2 :=
      match rest1 with
      | '.' :: tl => tl.drop fracDs.length
      | _ => rest1
    if intDs.isEmpty && fracDs.isEmpty then none
    else
      let ex := (parseExponent rest2).1
      some (JsNum.clamp
        ⟨(digitsToNat intDs : Int) * 10 ^ fracDs.length + (digitsToNat fracDs : Int),
         ex - (fracDs.length : Int)⟩)

/-- Model of JS `parseFloat`: skip leading whitespace, optional sign,
then the longest decimal-literal prefix (`Infinity` allowed); `NaN` when
no prefix parses. -/
def parseFloatJs (s : String) : JsNum :=
  let cs := s.data.dropWhile isJsWhitespace
  let s1 := parseSign cs
  match parseDecimalLiteral s1.2 with
  | none => JsNum.nan
  | some v => if s1.1 then JsNum.neg v else v

/-! ## Rule evaluator — `src/resolver/evaluate.ts` -/

/-- The rule discriminants of a `ResolutionSpec` (`src/types.ts`). -/
inductive RuleType where
  | greater_than : RuleType
  | less_than : RuleType
  | equals : RuleType
deriving DecidableEq, Repr

/-- A threshold rule `{type, value}` (the `value` is a JS number). -/
structure Rule where
  type : RuleType
  value : JsNum
deriving DecidableEq, Repr

/-- `evaluateRule(parsedValue, rule)` from `src/resolver/evaluate.ts`:
`parseFloat` the value string and compare with `>`, `<` or `===`.  The
TS `default` branch throws only on a rule type outside the declared
union, which the closed `RuleType` excludes. -/
def evaluateRule (parsedValue : String) (rule : Rule) : Bool :=
  let value := parseFloatJs parsedValue
  match rule.type with
  | RuleType.greater_than => JsNum.gt value rule.value
  | RuleType.less_than => JsNum.lt value rule.value
  | RuleType.equals => JsNum.eqJs value rule.value

example : parseFloatJs "105000.50" = JsNum.fin ⟨10500050, -2⟩ := by decide
example : parseFloatJs "abc" = JsNum.nan := by decide
example : parseFloatJs "Infinity" = JsNum.inf true := by decide
example : parseFloatJs "12abc" = JsNum.fin ⟨12, 0⟩ := by decide
example : jsNumToString (JsNum.fin ⟨10500050, -2⟩) = "105000.5" := by decide
example : evaluateRule "105000.5"
    ⟨RuleType.greater_than, JsNum.fin ⟨100000, 0⟩⟩ = true := by decide

/-! ## JSON model (JS `JSON.parse` / `JSON.stringify`) -/

/-- JSON value as produced by `JSON.parse` (numbers are JS numbers:
`JSON.parse` of an overflowing literal yields `Infinity`). -/
inductive Json where
  | null : Json
  | bool (b : Bool) : Json
  | num (n : JsNum) : Json
  | str (s : String) : Json
  | arr (xs : List Json) : Json
  | obj (fields : List (String × Json)) : Json

/-- JSON whitespace (the only characters `JSON.parse` skips). -/
def skipJsonWs (cs : List Char) : List Char :=
  cs.dropWhile (fun c => c = ' ' || c = '\t' || c = '\n' || c = '\r')

/-- Hex digit value. -/
def hexVal (c : Char) : Option Nat :=
  if c.isDigit then some (c.toNat - 48)
  else if 'a' ≤ c && c ≤ 'f' then some (c.toNat - 87)
  else if 'A' ≤ c && c ≤ 'F' then some (c.toNat - 55)
  else none

/-- Parse the body of a JSON string literal (after the opening quote):
returns the decoded characters and the input after the closing quote.
Raw control characters are rejected, escapes decoded as `JSON.parse`
does (astral surrogate pairs are not recombined; no claim input uses
them). -/
def parseJsonString : List Char → Option (List Char × List Char)
  | [] => none
  | '"' :: rest => some ([], rest)
  | '\\' :: esc =>
      match esc with
      | '"' :: r => (parseJsonString r).map (fun p => ('"' :: p.1, p.2))
      | '\\' :: r => (parseJsonString r).map (fun p => ('\\' :: p.1, p.2))
      | '/' :: r => (parseJsonString r).map (fun p => ('/' :: p.1, p.2))
      | 'b' :: r => (parseJsonString r).map (fun p => (Char.ofNat 8 :: p.1, p.2))
      | 'f' :: r => (parseJsonString r).map (fun p => (Char.ofNat 12 :: p.1, p.2))
      | 'n' :: r => (parseJsonString r).map (fun p => ('\n' :: p.1, p.2))
      | 'r' :: r => (parseJsonString r).map (fun p => ('\r' :: p.1, p.2))
      | 't' :: r => (parseJsonString r).map (fun p => ('\t' :: p.1, p.2))
      | 'u' :: h1 :: h2 :: h3 :: h4 :: r =>
          match hexVal h1, hexVal h2, hexVal h3, hexVal h4 with
          | some a, some b, some c, some d =>
              (parseJsonString r).map
                (fun p => (Char.ofNat (((a * 16 + b) * 16 + c) * 16 + d) :: p.1, p.2))
          | _, _, _, _ => none
      | _ => none
  | c :: rest =>
      if c.toNat < 32 then none
      else (parseJsonString rest).map (fun p => (c :: p.1, p.2))

/-- Parse a strict JSON number literal (`-?(0|[1-9]\d*)(\.\d+)?([eE][+-]?\d+)?`),
returning its JS-number value (overflow clamps to infinity, as
`JSON.parse` of a huge literal yields `Infinity`). -/
def parseJsonNumber (cs : List Char) : Option (JsNum × List Char) :=
  let (neg, cs1) :=
    match cs with
    | '-' :: r => (true, r)
    | _ => (false, cs)
  let intPart : Option (List Char × List Char) :=
    match cs1 with
    | '0' :: r => some (['0'], r)
    | c :: _ =>
        if c.isDigit then some (cs1.takeWhile Char.isDigit, cs1.drop (cs1.takeWhile Char.isDigit).length)
        else none
    | [] => none
  match intPart with
  | none => none
  | some (intDs, rest1) =>
      let fracDs :=
        match rest1 with
        | '.' :: tl => tl.takeWhile Char.isDigit
        | _ => []
      match rest1 with
      | '.' :: tl =>
          if fracDs.isEmpty then none
          else
            let rest2 := tl.drop fracDs.length
            let ep := parseExponent rest2
            let rest3 : List Char :=
              if ep.2 = rest2 ∧ (rest2.head? = some 'e' ∨ rest2.head? = some 'E') then rest2 else ep.2
            if (rest2.head? = some 'e' ∨ rest2.head? = some 'E') ∧ ep.2 = rest2 then none
            else
              let mag : Int := (digitsToNat intDs : Int) * 10 ^ fracDs.length + (digitsToNat fracDs : Int)
              some (JsNum.clamp ⟨if neg then -mag else mag, ep.1 - (fracDs.length : Int)⟩, rest3)
      | _ =>
          let ep := parseExponent rest1
          if (rest1.head? = some 'e' ∨ rest1.head? = some 'E') ∧ ep.2 = rest1 then none
          else
            let mag : Int := (digitsToNat intDs : Int)
            some (JsNum.clamp ⟨if neg then -mag else mag, ep.1⟩, ep.2)

mutual

/-- Parse one JSON value (fuelled recursive-descent `JSON.parse`). -/
def parseJsonValue : Nat → List Char → Option (Json × List Char)
  | 0, _ => none
  | fuel + 1, cs =>
      match skipJsonWs cs with
      | 'n' :: 'u' :: 'l' :: 'l' :: rest => some (Json.null, rest)
      | 't' :: 'r' :: 'u' :: 'e' :: rest => some (Json.bool true, rest)
      | 'f' :: 'a' :: 'l' :: 's' :: 'e' :: rest => some (Json.bool false, rest)
      | '"' :: rest =>
          (parseJsonString rest).map (fun p => (Json.str (String.mk p.1), p.2))
      | '[' :: rest =>
          (match skipJsonWs rest with
           | ']' :: rest1 => some (Json.arr [], rest1)
           | _ => (parseJsonArrayItems fuel rest).map (fun p => (Json.arr p.1, p.2)))
      | '\x7b' :: rest =>
          (match skipJsonWs rest with
           | '\x7d' :: rest1 => some (Json.obj [], rest1)
           | _ => (parseJsonObjectItems fuel rest).map (fun p => (Json.obj p.1, p.2)))
      | other => (parseJsonNumber other).map (fun p => (Json.num p.1, p.2))

/-- Parse comma-separated array elements up to the closing bracket. -/
def parseJsonArrayItems : Nat → List Char → Option (List Json × List Char)
  | 0, _ => none
  | fuel + 1, cs =>
      match parseJsonValue fuel cs with
      | none => none
      | some (v, rest) =>
          match skipJsonWs rest with
          | ',' :: rest1 =>
              (parseJsonArrayItems fuel rest1).map (fun p => (v :: p.1, p.2))
          | ']' :: rest1 => some ([v], rest1)
          | _ => none

/-- Parse comma-separated object members up to the closing brace. -/
def parseJsonObjectItems : Nat → List Char → Option (List (String × Json) × List Char)
  | 0, _ => none
  | fuel + 1, cs =>
      match skipJsonWs cs with
      | '"' :: rest =>
          match parseJsonString rest with
          | none => none
          | some (key, rest1) =>
              match skipJsonWs rest1 with
              | ':' :: rest2 =>
                  match parseJsonValue fuel rest2 with
                  | none => none
                  | some (v, rest3) =>
                      match skipJsonWs rest3 with
                      | ',' :: rest4 =>
                          (parseJsonObjectItems fuel rest4).map
                            (fun p => ((String.mk key, v) :: p.1, p.2))
                      | '\x7d' :: rest4 => some ([(String.mk key, v)], rest4)
                      | _ => none
              | _ => none
      | _ => none

end

/-- Model of JS `JSON.parse`: `none` exactly when the input is not a
valid JSON document (the engine then throws a `SyntaxError`). -/
def jsonParse (s : String) : Option Json :=
  match parseJsonValue (s.data.length + 2) s.data with
  | some (j, rest) => if (skipJsonWs rest).isEmpty then some j else none
  | none => none

/-- Two lowercase hex digits. -/
def hex2 (n : Nat) : String :=
  let hexDigit := fun (k : Nat) =>
    if k < 10 then Char.ofNat (48 + k) else Char.ofNat (87 + k - 10)
  String.mk [hexDigit ((n / 16) % 16), hexDigit (n % 16)]

/-- Escape one character as `JSON.stringify` does inside string output. -/
def escapeJsonChar (c : Char) : String :=
  if c = '"' then "\\\""
  else if c = '\\' then "\\\\"
  else if c = Char.ofNat 8 then "\\b"
  else if c = Char.ofNat 12 then "\\f"
  else if c = '\n' then "\\n"
  else if c = '\r' then "\\r"
  else if c = '\t' then "\\t"
  else if c.toNat < 32 then "\\u00" ++ hex2 c.toNat
  else String.mk [c]

/-- Quote and escape a string as `JSON.stringify` renders it. -/
def quoteJsonString (s : String) : String :=
  "\"" ++ String.join (s.data.map escapeJsonChar) ++ "\""

mutual

/-- Model of JS `JSON.stringify` on a parsed value: insertion-order
keys, no whitespace (non-finite numbers render as `null`, as JS does). -/
def jsonStringify : Json → String
  | Json.null => "null"
  | Json.bool b => if b then "true" else "false"
  | Json.num (JsNum.fin d) => renderDec d
  | Json.num _ => "null"
  | Json.str s => quoteJsonString s
  | Json.arr xs => "[" ++ String.intercalate "," (jsonStringifyList xs) ++ "]"
  | Json.obj fs => "\x7b" ++ String.intercalate "," (jsonStringifyFields fs) ++ "\x7d"

/-- Serialize array elements. -/
def jsonStringifyList : List Json → List String
  | [] => []
  | x :: xs => jsonStringify x :: jsonStringifyList xs

/-- Serialize object members. -/
def jsonStringifyFields : List (String × Json) → List String
  | [] => []
  | (k, v) :: fs => (quoteJsonString k ++ ":" ++ jsonStringify v) :: jsonStringifyFields fs

end

mutual

/-- JS array-join element rendering (`null` renders empty inside a
join, per `Array.prototype.toString`). -/
def jsElemString : Json → String
  | Json.null => ""
  | Json.bool b => if b then "true" else "false"
  | Json.num n => jsNumToString n
  | Json.str s => s
  | Json.arr xs => jsArrayJoin xs
  | Json.obj _ => "[object Object]"

/-- `Array.prototype.toString`: elements joined by commas. -/
def jsArrayJoin : List Json → String
  | [] => ""
  | [x] => jsElemString x
  | x :: xs => jsElemString x ++ "," ++ jsArrayJoin xs

end

/-- Model of JS `String(v)` on a parsed JSON value. -/
def jsStringOf : Json → String
  | Json.null => "null"
  | j => jsElemString j

/-- JS property access `obj[key]` on a parsed JSON value: objects keep
the last binding for a duplicated key (as `JSON.parse` does); access on
any non-object yields `undefined` (`none`). -/
def getField (j : Json) (key : String) : Option Json :=
  match j with
  | Json.obj fs => (fs.reverse.find? (fun p => p.1 == key)).map Prod.snd
  | _ => none

example : jsonParse "\x7b\"home\":2,\"away\":1\x7d" =
    some (Json.obj [("home", Json.num (JsNum.fin ⟨2, 0⟩)),
                    ("away", Json.num (JsNum.fin ⟨1, 0⟩))]) := rfl
example : jsonParse "not json" = none := rfl

/-! ## JS `Number(...)` coercion (used by the score transforms) -/

/-- Parse an entire unsigned decimal literal (or `Infinity`); `none`
unless the whole input matches — the strict grammar of JS
`StringToNumber` (`Number("1e")` is `NaN`, `Number("12.")` is `12`). -/
def parseFullDecimal (cs : List Char) : Option JsNum :=
  if cs = "Infinity".data then some (JsNum.inf true)
  else
    let intDs := cs.takeWhile Char.isDigit
    let rest1 := cs.drop intDs.length
    let fracDs :=
      match rest1 with
      | '.' :: tl => tl.takeWhile Char.isDigit
      | _ => []
    let rest2 :=
      match rest1 with
      | '.' :: tl => tl.drop fracDs.length
      | _ => rest1
    if intDs.isEmpty && fracDs.isEmpty then none
    else
      let ep := parseExponent rest2
      if ep.2.isEmpty then
        some (JsNum.clamp
          ⟨(digitsToNat intDs : Int) * 10 ^ fracDs.length + (digitsToNat fracDs : Int),
           ep.1 - (fracDs.length : Int)⟩)
      else none

/-- Digits in a given radix, entire run required. -/
def parseRadix (b : Nat) (digitVal : Char → Option Nat) (ds : List Char) : Option Nat :=
  if ds.isEmpty then none
  else
    ds.foldl
      (fun acc c =>
        match acc, digitVal c with
        | some a, some v => if v < b then some (b * a + v) else none
        | _, _ => none)
      (some 0)

/-- Octal/binary/decimal digit value. -/
def decDigitVal (c : Char) : Option Nat :=
  if c.isDigit then some (c.toNat - 48) else none

/-- Model of JS `Number("...")` (the `StringToNumber` conversion used by
`Number(score.home)` on string fields): trim whitespace, empty is `0`,
signed decimal/`Infinity`, or unsigned `0x`/`0o`/`0b` radix literal;
anything else is `NaN`. -/
def stringToNumberJs (s : String) : JsNum :=
  let cs := ((s.data.dropWhile isJsWhitespace).reverse.dropWhile isJsWhitespace).reverse
  let signedDecimal := fun (cs : List Char) =>
    let s1 := parseSign cs
    match parseFullDecimal s1.2 with
    | none => JsNum.nan
    | some v => if s1.1 then JsNum.neg v else v
  match cs with
  | [] => JsNum.fin ⟨0, 0⟩
  | '0' :: c :: rest =>
      if c = 'x' || c = 'X' then
        match parseRadix 16 hexVal rest with
        | some n => JsNum.clamp ⟨(n : Int), 0⟩
        | none => JsNum.nan
      else if c = 'o' || c = 'O' then
        match parseRadix 8 decDigitVal rest with
        | some n => JsNum.clamp ⟨(n : Int), 0⟩
        | none => JsNum.nan
      else if c = 'b' || c = 'B' then
        match parseRadix 2 decDigitVal rest with
        | some n => JsNum.clamp ⟨(n : Int), 0⟩
        | none => JsNum.nan
      else signedDecimal cs
  | _ => signedDecimal cs

/-- Model of JS `Number(v)` on a field read from a parsed JSON value
(`none` is an absent field, i.e. `undefined`, which coerces to `NaN`;
arrays coerce through their joined string form; plain objects coerce
through `"[object Object]"`, hence `NaN`). -/
def toNumberJson : Option Json → JsNum
  | none => JsNum.nan
  | some Json.null => JsNum.fin ⟨0, 0⟩
  | some (Json.bool b) => JsNum.fin ⟨if b then 1 else 0, 0⟩
  | some (Json.num n) => n
  | some (Json.str s) => stringToNumberJs s
  | some (Json.arr xs) => stringToNumberJs (jsArrayJoin xs)
  | some (Json.obj _) => JsNum.nan

/-! ## Value transformer — `src/resolver/transform.ts` (full version,
`src/unnamed/part_003`; the copy under `src/resolver` contains only the
`decimal` branch of the same function) -/

/-- The transform discriminants of a `ResolutionSpec`. -/
inductive TransformType where
  | decimal : TransformType
  | score_diff : TransformType
  | score_sum : TransformType
deriving DecidableEq, Repr

/-- Rendering of `${v}` for a possibly-absent JSON field (used in the
`parseScore` error message). -/
def displayField : Option Json → String
  | none => "undefined"
  | some j => jsStringOf j

/-- `parseScore(extracted)` from the transformer: `JSON.parse` the
string (error if invalid), read `home`/`away`, coerce with `Number`,
error if either coerces to `NaN`. -/
def parseScore (extracted : String) : Except String (JsNum × JsNum) :=
  match jsonParse extracted with
  | none => Except.error ("Cannot parse score object: \"" ++ extracted ++ "\"")
  | some j =>
      let home := toNumberJson (getField j "home")
      let away := toNumberJson (getField j "away")
      if home.isNaN || away.isNaN then
        Except.error ("Invalid score values: home=" ++ displayField (getField j "home")
          ++ ", away=" ++ displayField (getField j "away"))
      else Except.ok (home, away)

/-- `transformValue(extracted, transform)`: `decimal` is
`parseFloat` + `isNaN` check + `toString`; the score transforms go
through `parseScore` and stringify the difference/sum.  The TS
unknown-type throw is unreachable for the closed `TransformType`. -/
def transformValue (extracted : String) (transform : TransformType) : Except String String :=
  match transform with
  | TransformType.decimal =>
      let num := parseFloatJs extracted
      if num.isNaN then Except.error ("Cannot parse \"" ++ extracted ++ "\" as decimal")
      else Except.ok (jsNumToString num)
  | TransformType.score_diff =>
      (parseScore extracted).map (fun s => jsNumToString (JsNum.sub s.1 s.2))
  | TransformType.score_sum =>
      (parseScore extracted).map (fun s => jsNumToString (JsNum.add s.1 s.2))

/-! ## Value extractor — `src/resolver/extract.ts` -/

/-- The extraction discriminants of a `ResolutionSpec`. -/
inductive Extraction where
  | jsonpath (path : String) : Extraction
  | script (lang : String) (code : String) : Extraction

/-- `extractValue(rawResponse, extraction)`; the JSONPath query engine
(library `jsonpath-plus`) and the script sandbox are external
collaborators, passed as the functions `jp` and `runScript`.  JSONPath
mode: `JSON.parse` the raw response (the engine throws a `SyntaxError`
on invalid JSON, modelled as an error result), fail when the result set
is empty, otherwise keep only the first match — `JSON.stringify` for
values of JS type `"object"` (objects, arrays and `null`), `String(v)`
for scalars. -/
def extractValue (jp : String → Json → List Json)
    (runScript : String → String → Except String String)
    (rawResponse : String) (ext : Extraction) : Except String String :=
  match ext with
  | Extraction.script _ code => runScript rawResponse code
  | Extraction.jsonpath path =>
      match jsonParse rawResponse with
      | none => Except.error "JSON.parse: invalid JSON in raw response"
      | some data =>
          match jp path data with
          | [] => Except.error ("JSONPath \"" ++ path ++ "\" returned no results")
          | value :: _ =>
              match value with
              | Json.obj _ => Except.ok (jsonStringify value)
              | Json.arr _ => Except.ok (jsonStringify value)
              | Json.null => Except.ok (jsonStringify value)
              | _ => Except.ok (jsStringOf value)

example : transformValue "\x7b\"home\":2,\"away\":1\x7d" TransformType.score_diff =
    Except.ok "1" := rfl
example : transformValue "\x7b\"home\":2,\"away\":1\x7d" TransformType.score_sum =
    Except.ok "3" := rfl
example : transformValue "105000.50" TransformType.decimal = Except.ok "105000.5" := rfl
example : transformValue "Infinity" TransformType.decimal = Except.ok "Infinity" := rfl

/-! ## Template expander — `src/ai/template.ts` (value-level model)

This section models the input/output behaviour of `expandTemplate`
(which templates map to which spec lists or errors); the reference-level
copying behaviour of the same function is modelled separately below for
the aliasing claim. -/

/-- A template parameter value (`string | number`). -/
inductive ParamVal where
  | pstr (s : String) : ParamVal
  | pnum (n : JsNum) : ParamVal
deriving DecidableEq, Repr

/-- JS `String(value)` on a parameter value (as used by
`result.replaceAll(..., String(value))`). -/
def paramValToString : ParamVal → String
  | ParamVal.pstr s => s
  | ParamVal.pnum n => jsNumToString n

/-- The rule value of a template (`number | string`). -/
inductive TRuleValue where
  | rnum (n : JsNum) : TRuleValue
  | rstr (s : String) : TRuleValue
deriving DecidableEq, Repr

/-- `TemplateSpec` (value view): `source`/`extraction`/`timestampRule`
are JSON-shaped structures whose string leaves may contain `{param}`
placeholders. -/
structure TemplateSpec where
  marketIdTemplate : String
  source : Json
  extraction : Json
  transform : TransformType
  ruleType : RuleType
  ruleValue : TRuleValue
  timestampRule : Option Json
  params : List (String × List ParamVal)

/-- `ResolutionSpec` (value view) as assembled by `expandTemplate`. -/
structure ResolutionSpec where
  marketId : String
  source : Json
  extraction : Json
  transform : TransformType
  rule : Rule
  timestampRule : Option Json

/-- The substitution map for row `i`: `replacements[param.name] =
param.values[i]`, built in parameter order (a duplicated name keeps its
first position and the last value, like JS object assignment). -/
def buildReplacements (params : List (String × List ParamVal)) (i : Nat) :
    List (String × ParamVal) :=
  params.foldl
    (fun acc p =>
      let v := p.2.getD i (ParamVal.pstr "")
      if acc.any (fun q => q.1 == p.1) then
        acc.map (fun q => if q.1 == p.1 then (q.1, v) else q)
      else acc ++ [(p.1, v)])
    []

/-- Left-to-right non-overlapping replacement of a non-empty pattern
(`p :: ps`) by `rep` (the semantics of JS `replaceAll`); fuelled by the
input length (each step consumes at least one character, so fuel equal
to the length is always enough). -/
def replaceAllAux (p : Char) (ps rep : List Char) : Nat → List Char → List Char
  | 0, l => l
  | _ + 1, [] => []
  | fuel + 1, c :: rest =>
      if (p :: ps).isPrefixOf (c :: rest) then
        rep ++ replaceAllAux p ps rep fuel (rest.drop ps.length)
      else c :: replaceAllAux p ps rep fuel rest

/-- JS `String.prototype.replaceAll` for a non-empty pattern (every
pattern used by the expander is `\x7b ++ name ++ \x7d`, never empty). -/
def replaceAllStr (s pat rep : String) : String :=
  match pat.data with
  | [] => s
  | p :: ps => String.mk (replaceAllAux p ps rep.data s.data.length s.data)

/-- String-leaf substitution: `result.replaceAll(` the braced parameter
name `, String(value))` for each replacement entry in order. -/
def substStr (repl : List (String × ParamVal)) (s : String) : String :=
  repl.foldl
    (fun acc p => replaceAllStr acc ("\x7b" ++ p.1 ++ "\x7d") (paramValToString p.2)) s

mutual

/-- `substituteParams`: deep substitution through a JSON-shaped value —
strings substituted, numbers/booleans/null unchanged, arrays and
objects rebuilt recursively. -/
def substJson (repl : List (String × ParamVal)) : Json → Json
  | Json.str s => Json.str (substStr repl s)
  | Json.null => Json.null
  | Json.bool b => Json.bool b
  | Json.num n => Json.num n
  | Json.arr xs => Json.arr (substJsonList repl xs)
  | Json.obj fs => Json.obj (substJsonFields repl fs)

/-- Substitute in each array element. -/
def substJsonList (repl : List (String × ParamVal)) : List Json → List Json
  | [] => []
  | x :: xs => substJson repl x :: substJsonList repl xs

/-- Substitute in each object member value. -/
def substJsonFields (repl : List (String × ParamVal)) :
    List (String × Json) → List (String × Json)
  | [] => []
  | (k, v) :: fs => (k, substJson repl v) :: substJsonFields repl fs

end

/-- The regex `/^-?\d+(\.\d+)?$/` of `parseQueryValues`. -/
def fullyNumeric (s : String) : Bool :=
  let cs := s.data
  let cs1 := match cs with
    | '-' :: r => r
    | _ => cs
  let ds := cs1.takeWhile Char.isDigit
  if ds.isEmpty then false
  else
    match cs1.drop ds.length with
    | [] => true
    | '.' :: tl => !tl.isEmpty && tl.all Char.isDigit
    | _ => false

/-- `parseQueryValues`: re-coerce substituted query values that look
fully numeric back to numbers. -/
def parseQueryValuesJson : Json → Json
  | Json.obj qs =>
      Json.obj (qs.map (fun p =>
        match p.2 with
        | Json.str s =>
            if fullyNumeric s then (p.1, Json.num (stringToNumberJs s))
            else (p.1, Json.str s)
        | v => (p.1, v)))
  | v => v

/-- Does the (substituted) source have `type === "http"`? -/
def isHttpSource (fs : List (String × Json)) : Bool :=
  match ((fs.reverse.find? (fun p => p.1 == "type")).map Prod.snd) with
  | some (Json.str s) => s == "http"
  | _ => false

/-- Is a truthy object `query` field present? -/
def hasObjQuery (fs : List (String × Json)) : Bool :=
  match ((fs.reverse.find? (fun p => p.1 == "query")).map Prod.snd) with
  | some (Json.obj _) => true
  | _ => false

/-- The `source.query = parseQueryValues(source.query)` step applied to
the substituted source. -/
def applyQueryCoercion (source : Json) : Json :=
  match source with
  | Json.obj fs =>
      if isHttpSource fs && hasObjQuery fs then
        Json.obj (fs.map (fun p =>
          if p.1 == "query" then (p.1, parseQueryValuesJson p.2) else p))
      else Json.obj fs
  | v => v

/-- The length-mismatch error thrown by `expandTemplate`. -/
def mismatchMessage (name : String) (len expected : Nat) : String :=
  "All params must have the same number of values. \"" ++ name ++ "\" has "
    ++ toString len ++ ", expected " ++ toString expected ++ "."

/-- Resolve `rule.value` for row `i`: numbers copied verbatim; strings
substituted and `parseFloat`-parsed, throwing when the parse yields
`NaN`. -/
def rowRuleValue (rv : TRuleValue) (repl : List (String × ParamVal)) (i : Nat) :
    Except String JsNum :=
  match rv with
  | TRuleValue.rnum n => Except.ok n
  | TRuleValue.rstr s =>
      let substituted := substStr repl s
      let v := parseFloatJs substituted
      if v.isNaN then
        Except.error ("rule.value \"" ++ s ++ "\" substituted to \"" ++ substituted
          ++ "\" which is not a number (row " ++ toString i ++ ")")
      else Except.ok v

/-- Assemble the concrete `ResolutionSpec` for row `i` of a template. -/
def rowSpec (t : TemplateSpec) (i : Nat) : Except String ResolutionSpec :=
  let repl := buildReplacements t.params i
  match rowRuleValue t.ruleValue repl i with
  | Except.error e => Except.error e
  | Except.ok rv =>
      Except.ok
        { marketId := substStr repl t.marketIdTemplate
          source := applyQueryCoercion (substJson repl t.source)
          extraction := substJson repl t.extraction
          transform := t.transform
          rule := ⟨t.ruleType, rv⟩
          timestampRule := t.timestampRule.map (substJson repl) }

/-- The row loop of `expandTemplate` (`for i ... specs.push(...)`): one
spec per row in order; a thrown row error aborts the whole loop. -/
def expandRows (t : TemplateSpec) : List Nat → Except String (List ResolutionSpec)
  | [] => Except.ok []
  | i :: rest =>
      match rowSpec t i with
      | Except.error e => Except.error e
      | Except.ok s =>
          match expandRows t rest with
          | Except.error e => Except.error e
          | Except.ok out => Except.ok (s :: out)

/-- `expandTemplate(template)`: empty params give `[]`; a params-length
mismatch throws; otherwise one spec per row, any row failure aborting
the whole expansion. -/
def expandTemplate (t : TemplateSpec) : Except String (List ResolutionSpec) :=
  match t.params with
  | [] => Except.ok []
  | p0 :: _ =>
      let count := p0.2.length
      match t.params.find? (fun p => p.2.length != count) with
      | some p => Except.error (mismatchMessage p.1 p.2.length count)
      | none => expandRows t (List.range count)

/-! ## Spec validator, script-extraction branch — `src/ai/validate.ts`
(the `ext.type === "script"` arm of `validateSpec`) -/

/-- JS `\w` word character (ASCII letters, digits, underscore). -/
def isWordChar (c : Char) : Bool := c.isAlphanum || c = '_'

/-- Literal match: consume `lit` from the front, returning the rest. -/
def matchLit : List Char → List Char → Option (List Char)
  | [], cs => some cs
  | l :: ls, c :: cs => if c = l then matchLit ls cs else none
  | _ :: _, [] => none

/-- `\s+`: consume at least one whitespace character. -/
def ws1 (cs : List Char) : Option (List Char) :=
  let ws := cs.takeWhile isJsWhitespace
  if ws.isEmpty then none else some (cs.drop ws.length)

/-- `\s*`: consume any whitespace. -/
def wsStar (cs : List Char) : List Char :=
  cs.drop (cs.takeWhile isJsWhitespace).length

/-- Trailing `\b`: the next character is not a word character. -/
def boundaryAfter : List Char → Bool
  | [] => true
  | c :: _ => !(isWordChar c)

/-- Does `\bKW\s+extract\b` match at this position (the `\b` before `KW`
is checked by the scanner)? -/
def declMatchHere (kw : List Char) (cs : List Char) : Bool :=
  match matchLit kw cs with
  | none => false
  | some r1 =>
      match ws1 r1 with
      | none => false
      | some r2 =>
          match matchLit "extract".data r2 with
          | none => false
          | some r3 => boundaryAfter r3

/-- Does `\bKW\s*\(` match at this position? -/
def callMatchHere (kw : List Char) (cs : List Char) : Bool :=
  match matchLit kw cs with
  | none => false
  | some r1 =>
      match wsStar r1 with
      | '(' :: _ => true
      | _ => false

/-- Does `\bKW\s+` match at this position? -/
def kwWsMatchHere (kw : List Char) (cs : List Char) : Bool :=
  match matchLit kw cs with
  | none => false
  | some r1 => (ws1 r1).isSome

/-- Does `\bKW\.` match at this position? -/
def dotMatchHere (kw : List Char) (cs : List Char) : Bool :=
  match matchLit kw cs with
  | none => false
  | some r1 =>
      match r1 with
      | '.' :: _ => true
      | _ => false

/-- Scan the code for a position, preceded by a non-word character (the
leading `\b`), where the given position matcher fires. -/
def scanPat (p : List Char → Bool) : Bool → List Char → Bool
  | _, [] => false
  | prevWord, c :: rest =>
      (!prevWord && p (c :: rest)) || scanPat p (isWordChar c) rest

/-- The regex `/\bfunction\s+extract\b|\bconst\s+extract\b|\blet\s+extract\b|\bvar\s+extract\b/`
(textual declaration of an `extract` function). -/
def declaresExtract (code : String) : Bool :=
  scanPat (fun cs => declMatchHere "function".data cs || declMatchHere "const".data cs
    || declMatchHere "let".data cs || declMatchHere "var".data cs) false code.data

/-- The regex `/\brequire\s*\(/`. -/
def hasRequireCall (code : String) : Bool :=
  scanPat (callMatchHere "require".data) false code.data

/-- The regex `/\bimport\s+/`. -/
def hasImportKw (code : String) : Bool :=
  scanPat (kwWsMatchHere "import".data) false code.data

/-- The regex `/\bfetch\s*\(/`. -/
def hasFetchCall (code : String) : Bool :=
  scanPat (callMatchHere "fetch".data) false code.data

/-- The regex `/\bprocess\./`. -/
def hasProcessDot (code : String) : Bool :=
  scanPat (dotMatchHere "process".data) false code.data

/-- The script-extraction branch of `validateSpec`: `lang` must be
`"javascript"`; a non-empty `code` must textually declare `extract`
(error), is syntax-checked by the JS engine (`new Function`, an external
collaborator passed as `jsSyntax`: `none` means it parsed), and gets a
warning — never an error — for each denylist regex it matches
(`require(`, `import`, `fetch(`, `process.`).  Returns
(errors, warnings) in push order. -/
def validateScriptExtraction (lang code : String) (jsSyntax : Option String) :
    List String × List String :=
  let langErrs :=
    if lang ≠ "javascript" then ["extraction.lang must be \"javascript\""] else []
  if code = "" then
    (langErrs ++ ["extraction.code must be a non-empty string"], [])
  else
    let declErr :=
      if !declaresExtract code then
        ["extraction.code must define an extract() function"]
      else []
    let synErr :=
      match jsSyntax with
      | some m => ["extraction.code has syntax error: " ++ m]
      | none => []
    let warns :=
      (if hasRequireCall code then
        ["extraction.code contains require() — this will fail in the sandbox"] else [])
      ++ (if hasImportKw code then
        ["extraction.code contains import — this will fail in the sandbox"] else [])
      ++ (if hasFetchCall code then
        ["extraction.code contains fetch() — this will fail in the sandbox"] else [])
      ++ (if hasProcessDot code then
        ["extraction.code references process — this will fail in the sandbox"] else [])
    (langErrs ++ declErr ++ synErr, warns)

example : declaresExtract "function extract(raw) \x7b return raw; \x7d" = true := rfl
example : declaresExtract "const f = 1" = false := rfl
example : hasProcessDot "return process.env.X" = true := rfl
example : hasRequireCall "const x = require(\"fs\")" = true := rfl

/-! ## Message packing — `src/resolver/sign.ts` vs `VoranOracle.settle` -/

/-- Big-endian fixed-width byte encoding of a natural number. -/
def beBytes (width : Nat) (n : Nat) : List Nat :=
  (List.range width).reverse.map (fun i => (n / 256 ^ i) % 256)

/-- UTF-8 encoding of one character. -/
def utf8Char (c : Char) : List Nat :=
  let n := c.toNat
  if n < 128 then [n]
  else if n < 2048 then [192 + n / 64, 128 + n % 64]
  else if n < 65536 then [224 + n / 4096, 128 + (n / 64) % 64, 128 + n % 64]
  else [240 + n / 262144, 128 + (n / 4096) % 64, 128 + (n / 64) % 64, 128 + n % 64]

/-- UTF-8 encoding of a string (viem `toBytes` on a string). -/
def utf8Bytes (s : String) : List Nat := (s.data.map utf8Char).flatten

/-- Signer-side packed message, from `hashAndSign`
(`encodePacked(["bytes32","bytes32","bytes32","string","bool","uint64"],
[marketId, specHash, rawHash, parsedValue, result, executedAt])`):
the three 32-byte hashes, then the UTF-8 bytes of the string, one
boolean byte, and the 8-byte big-endian `uint64`. -/
def signerPackedMessage (marketId specHash rawHash : List Nat)
    (parsedValue : String) (result : Bool) (executedAt : Nat) : List Nat :=
  marketId ++ specHash ++ rawHash ++ utf8Bytes parsedValue
    ++ [if result then 1 else 0] ++ beBytes 8 (executedAt % 2 ^ 64)

/-- Verifier-side packed message, from `VoranOracle.settle`
(`abi.encodePacked(marketId, specHash, rawHash, parsedValue, result,
executedAt)`): `bytes32` values as their 32 bytes, the `string`
calldata as its raw bytes, `bool` as one byte, `uint64` as 8 big-endian
bytes. -/
def settlePackedMessage (marketId specHash rawHash : List Nat)
    (parsedValueBytes : List Nat) (result : Bool) (executedAt : Nat) : List Nat :=
  marketId ++ specHash ++ rawHash ++ parsedValueBytes
    ++ [if result then 1 else 0] ++ beBytes 8 (executedAt % 2 ^ 64)

/-! ## Hasher/signer — `src/resolver/sign.ts` -/

/-- The deterministic cryptographic primitives `hashAndSign` uses:
`keccak256`, and EIP-191 personal-message signing with the RFC-6979
deterministic nonce (viem `account.signMessage`); both are pure
functions of their inputs. -/
structure CryptoPrims where
  keccak256 : List Nat → List Nat
  signPersonal : List Nat → List Nat → List Nat

/-- Ambient machine state at the moment of signing; `hashAndSign` reads
only the clock (`Date.now()`, in milliseconds). -/
structure World where
  nowMs : Nat
  ambient : List Nat

/-- Name string of a transform discriminant. -/
def transformTypeName : TransformType → String
  | TransformType.decimal => "decimal"
  | TransformType.score_diff => "score_diff"
  | TransformType.score_sum => "score_sum"

/-- Name string of a rule discriminant. -/
def ruleTypeName : RuleType → String
  | RuleType.greater_than => "greater_than"
  | RuleType.less_than => "less_than"
  | RuleType.equals => "equals"

/-- The JSON value `JSON.stringify(spec)` serializes (field order as in
the `ResolutionSpec` shape; a spec parsed from a JSON document carries
its keys in insertion order). -/
def specToJson (s : ResolutionSpec) : Json :=
  Json.obj
    ([("marketId", Json.str s.marketId),
      ("source", s.source),
      ("extraction", s.extraction),
      ("transform", Json.obj [("type", Json.str (transformTypeName s.transform))]),
      ("rule", Json.obj [("type", Json.str (ruleTypeName s.rule.type)),
                         ("value", Json.num s.rule.value)])]
      ++ (match s.timestampRule with
          | some t => [("timestampRule", t)]
          | none => []))

/-- The signed payload produced by one resolution. -/
structure SignedPayload where
  marketId : List Nat
  specHash : List Nat
  rawHash : List Nat
  parsedValue : String
  result : Bool
  executedAt : Nat
  signature : List Nat
deriving DecidableEq

/-- `hashAndSign(spec, rawResponse, parsedValue, result, privateKey)`:
`specHash` hashes the canonical JSON serialization of the spec,
`rawHash` the raw response bytes, `marketId` the market-id bytes;
`executedAt` is the clock reading in seconds; the message hash packs the
six fields and is personal-signed. -/
def hashAndSign (prims : CryptoPrims) (w : World) (spec : ResolutionSpec)
    (rawResponse parsedValue : String) (result : Bool)
    (privateKey : List Nat) : SignedPayload :=
  let specHash := prims.keccak256 (utf8Bytes (jsonStringify (specToJson spec)))
  let rawHash := prims.keccak256 (utf8Bytes rawResponse)
  let marketId := prims.keccak256 (utf8Bytes spec.marketId)
  let executedAt := w.nowMs / 1000
  let messageHash := prims.keccak256
    (signerPackedMessage marketId specHash rawHash parsedValue result executedAt)
  { marketId := marketId
    specHash := specHash
    rawHash := rawHash
    parsedValue := parsedValue
    result := result
    executedAt := executedAt
    signature := prims.signPersonal privateKey messageHash }

/-! ## Template expander — reference-level model (aliasing behaviour)

The value-level model above captures which specs `expandTemplate`
computes; this model captures how it copies: JS objects and arrays live
in a store of addressed cells, primitives (strings, numbers, booleans,
`null`, `undefined`) are immediate values, and `substituteParams`
allocates fresh cells for the structures it rebuilds.  The line
`const transform = template.transform` copies only the *reference*. -/

/-- A JS value at the reference level: primitives are immediate,
objects/arrays are references into the store. -/
inductive HVal where
  | hstr (s : String) : HVal
  | hnum (n : JsNum) : HVal
  | hbool (b : Bool) : HVal
  | hnull : HVal
  | hundef : HVal
  | href (a : Nat) : HVal
deriving DecidableEq, Repr

/-- A heap cell: a plain object or an array. -/
inductive HObj where
  | hmap (fields : List (String × HVal)) : HObj
  | harr (items : List HVal) : HObj
deriving DecidableEq, Repr

/-- The object store: an allocation counter and an association list of
cells (newest first). -/
structure Store where
  next : Nat
  mem : List (Nat × HObj)
deriving DecidableEq, Repr

namespace Store

/-- Read the cell at an address. -/
def lookup (σ : Store) (a : Nat) : Option HObj :=
  (σ.mem.find? (fun p => p.1 == a)).map Prod.snd

/-- Allocate a fresh cell. -/
def alloc (σ : Store) (o : HObj) : Store × Nat :=
  (⟨σ.next + 1, (σ.next, o) :: σ.mem⟩, σ.next)

/-- Overwrite the cell at an address (in-place mutation). -/
def update (σ : Store) (a : Nat) (o : HObj) : Store :=
  ⟨σ.next, σ.mem.map (fun p => if p.1 == a then (a, o) else p)⟩

end Store

/-- Well-formed store: every cell address is below the allocation
counter. -/
def WfStore (σ : Store) : Prop := ∀ p ∈ σ.mem, p.1 < σ.next

/-- `substituteParams` at the reference level: strings substituted in
place (immutable primitives), other primitives passed through,
objects/arrays deep-copied into freshly allocated cells, their items
rebuilt left to right (the fold mirrors `.map` / the member loop).
Fuelled on reference-chasing depth; exhausted fuel yields `undefined`
(unreachable when the fuel bounds the reachable structure, as every
call below arranges); a dangling reference passes through unchanged
(TS cannot produce one). -/
def substH (repl : List (String × ParamVal)) : Nat → Store → HVal → Store × HVal
  | 0, σ, _ => (σ, HVal.hundef)
  | _ + 1, σ, HVal.hstr s => (σ, HVal.hstr (substStr repl s))
  | _ + 1, σ, HVal.hnum n => (σ, HVal.hnum n)
  | _ + 1, σ, HVal.hbool b => (σ, HVal.hbool b)
  | _ + 1, σ, HVal.hnull => (σ, HVal.hnull)
  | _ + 1, σ, HVal.hundef => (σ, HVal.hundef)
  | fuel + 1, σ, HVal.href a =>
      match σ.lookup a with
      | none => (σ, HVal.href a)
      | some (HObj.harr items) =>
          let r := items.foldl
            (fun acc v =>
              let s := substH repl fuel acc.1 v
              (s.1, acc.2 ++ [s.2]))
            (σ, ([] : List HVal))
          let r2 := r.1.alloc (HObj.harr r.2)
          (r2.1, HVal.href r2.2)
      | some (HObj.hmap fs) =>
          let r := fs.foldl
            (fun acc kv =>
              let s := substH repl fuel acc.1 kv.2
              (s.1, acc.2 ++ [(kv.1, s.2)]))
            (σ, ([] : List (String × HVal)))
          let r2 := r.1.alloc (HObj.hmap r.2)
          (r2.1, HVal.href r2.2)

/-- `TemplateSpec` at the reference level: the structured fields are
references into (or primitives alongside) a store. -/
structure HTemplate where
  marketIdTemplate : String
  source : HVal
  extraction : HVal
  transform : HVal
  ruleType : RuleType
  ruleValue : TRuleValue
  timestampRule : Option HVal
  params : List (String × List ParamVal)
deriving Repr

/-- `ResolutionSpec` at the reference level, as assembled by
`expandTemplate`. -/
structure HSpec where
  marketId : String
  source : HVal
  extraction : HVal
  transform : HVal
  rule : Rule
  timestampRule : Option HVal
deriving DecidableEq, Repr

/-- `parseQueryValues` over the fields of a query cell. -/
def parseQueryValuesH (qs : List (String × HVal)) : List (String × HVal) :=
  qs.map (fun p =>
    match p.2 with
    | HVal.hstr s =>
        if fullyNumeric s then (p.1, HVal.hnum (stringToNumberJs s))
        else (p.1, HVal.hstr s)
    | _ => p)

/-- Is this (substituted) source an http source (`type === "http"`)? -/
def isHttpSourceH (fs : List (String × HVal)) : Bool :=
  match ((fs.reverse.find? (fun p => p.1 == "type")).map Prod.snd) with
  | some (HVal.hstr s) => s == "http"
  | _ => false

/-- The `source.query = parseQueryValues(source.query)` step: builds a
fresh query object and writes the field of the (copied) source cell —
an in-place store update on the copy. -/
def applyQueryCoercionH (σ : Store) (source : HVal) : Store × HVal :=
  match source with
  | HVal.href a =>
      match σ.lookup a with
      | some (HObj.hmap fs) =>
          if isHttpSourceH fs then
            match ((fs.reverse.find? (fun p => p.1 == "query")).map Prod.snd) with
            | some (HVal.href q) =>
                match σ.lookup q with
                | some (HObj.hmap qs) =>
                    let r := σ.alloc (HObj.hmap (parseQueryValuesH qs))
                    (r.1.update a
                      (HObj.hmap (fs.map (fun p =>
                        if p.1 == "query" then (p.1, HVal.href r.2) else p))),
                     source)
                | _ => (σ, source)
            | _ => (σ, source)
          else (σ, source)
      | _ => (σ, source)
  | _ => (σ, source)

/-- One row of the reference-level expansion: substitute `marketId`
(string primitive), deep-copy `source` and `extraction`, *alias* the
transform (`const transform = template.transform`), resolve the rule
value, coerce query values on the copied source, deep-copy the
timestamp rule. -/
def rowSpecH (fuel : Nat) (t : HTemplate) (σ : Store) (i : Nat) :
    Except String (Store × HSpec) :=
  let repl := buildReplacements t.params i
  let marketId := substStr repl t.marketIdTemplate
  let rs := substH repl fuel σ t.source
  let re := substH repl fuel rs.1 t.extraction
  match rowRuleValue t.ruleValue repl i with
  | Except.error e => Except.error e
  | Except.ok rv =>
      let rq := applyQueryCoercionH re.1 rs.2
      let rt : Store × Option HVal :=
        match t.timestampRule with
        | none => (rq.1, none)
        | some tsr =>
            let r := substH repl fuel rq.1 tsr
            (r.1, some r.2)
      Except.ok (rt.1,
        { marketId := marketId
          source := rq.2
          extraction := re.2
          transform := t.transform
          rule := ⟨t.ruleType, rv⟩
          timestampRule := rt.2 })

/-- The row loop of the reference-level expansion, threading the store
through the rows. -/
def expandRowsH (fuel : Nat) (t : HTemplate) :
    Store → List Nat → Except String (Store × List HSpec)
  | σ, [] => Except.ok (σ, [])
  | σ, i :: rest =>
      match rowSpecH fuel t σ i with
      | Except.error e => Except.error e
      | Except.ok r =>
          match expandRowsH fuel t r.1 rest with
          | Except.error e => Except.error e
          | Except.ok r2 => Except.ok (r2.1, r.2 :: r2.2)

/-- Reference-level `expandTemplate`: the same control flow as the
value-level model, threading the store through the rows. -/
def expandTemplateH (fuel : Nat) (σ : Store) (t : HTemplate) :
    Except String (Store × List HSpec) :=
  match t.params with
  | [] => Except.ok (σ, [])
  | p0 :: _ =>
      let count := p0.2.length
      match t.params.find? (fun p => p.2.length != count) with
      | some p => Except.error (mismatchMessage p.1 p.2.length count)
      | none => expandRowsH fuel t σ (List.range count)

/-- JS property read `v[key]` through a reference. -/
def hreadField (σ : Store) (v : HVal) (key : String) : Option HVal :=
  match v with
  | HVal.href a =>
      match σ.lookup a with
      | some (HObj.hmap fs) => ((fs.reverse.find? (fun p => p.1 == key)).map Prod.snd)
      | _ => none
  | _ => none

/-- JS property write `v[key] = x` through a reference (in-place
mutation of the referenced cell). -/
def hwriteField (σ : Store) (v : HVal) (key : String) (x : HVal) : Store :=
  match v with
  | HVal.href a =>
      match σ.lookup a with
      | some (HObj.hmap fs) =>
          σ.update a (HObj.hmap
            (if fs.any (fun p => p.1 == key) then
              fs.map (fun p => if p.1 == key then (p.1, x) else p)
            else fs ++ [(key, x)]))
      | _ => σ
  | _ => σ

/-! ## Claim theorems -/

/-- C1: the signer-side packed message (viem `encodePacked` in
`hashAndSign`) is byte-for-byte the verifier-side packed message
(Solidity `abi.encodePacked` in `VoranOracle.settle`) for the same six
field values, hence the two keccak256 message hashes agree for any hash
function. -/
theorem signer_verifier_message_hash_agree
    (keccak : List Nat → List Nat)
    (marketId specHash rawHash : List Nat) (parsedValue : String)
    (parsedValueBytes : List Nat) (result : Bool) (executedAt : Nat)
    (hm : marketId.length = 32) (hs : specHash.length = 32)
    (hr : rawHash.length = 32) (ht : executedAt < 2 ^ 64)
    (hpv : parsedValueBytes = utf8Bytes parsedValue) :
    signerPackedMessage marketId specHash rawHash parsedValue result executedAt =
      settlePackedMessage marketId specHash rawHash parsedValueBytes result executedAt ∧
    keccak (signerPackedMessage marketId specHash rawHash parsedValue result executedAt) =
      keccak (settlePackedMessage marketId specHash rawHash parsedValueBytes result executedAt) := by
  subst hpv
  exact ⟨rfl, rfl⟩

/-- Witness for C1 at concrete field values. -/
theorem signer_verifier_message_hash_agree_witness :
    (List.replicate 32 7 : List Nat).length = 32 ∧
    (1760000000 : Nat) < 2 ^ 64 ∧
    (fun l => 0 :: l) (signerPackedMessage (List.replicate 32 7) (List.replicate 32 8)
        (List.replicate 32 9) "105000.5" true 1760000000) =
      (fun l => 0 :: l) (settlePackedMessage (List.replicate 32 7) (List.replicate 32 8)
        (List.replicate 32 9) (utf8Bytes "105000.5") true 1760000000) :=
  ⟨by decide, by decide,
    (signer_verifier_message_hash_agree (fun l => 0 :: l)
      (List.replicate 32 7) (List.replicate 32 8) (List.replicate 32 9)
      "105000.5" (utf8Bytes "105000.5") true 1760000000
      (by decide) (by decide) (by decide) (by decide) rfl).2⟩

/-- C2: signing is two-run deterministic — for a fixed
`(spec, rawResponse, parsedValue, result, privateKey)` and the same
clock reading (hence the same `executedAt`), two runs in possibly
different ambient worlds produce identical `specHash`, `rawHash` and
`signature`. -/
theorem hashAndSign_deterministic
    (prims : CryptoPrims) (w1 w2 : World) (spec : ResolutionSpec)
    (raw pv : String) (result : Bool) (pk : List Nat)
    (h : w1.nowMs = w2.nowMs) :
    (hashAndSign prims w1 spec raw pv result pk).specHash =
      (hashAndSign prims w2 spec raw pv result pk).specHash ∧
    (hashAndSign prims w1 spec raw pv result pk).rawHash =
      (hashAndSign prims w2 spec raw pv result pk).rawHash ∧
    (hashAndSign prims w1 spec raw pv result pk).signature =
      (hashAndSign prims w2 spec raw pv result pk).signature := by
  simp only [hashAndSign, h]
  exact ⟨trivial, trivial, trivial⟩

/-- Witness for C2: two worlds with the same clock but different
ambient state. -/
theorem hashAndSign_deterministic_witness :
    (hashAndSign ⟨fun l => l, fun pk m => pk ++ m⟩ ⟨1760000000123, []⟩
        ⟨"m", Json.null, Json.null, TransformType.decimal,
         ⟨RuleType.greater_than, JsNum.fin ⟨1, 0⟩⟩, none⟩
        "raw" "1" true [1, 2]).signature =
      (hashAndSign ⟨fun l => l, fun pk m => pk ++ m⟩ ⟨1760000000123, [9, 9]⟩
        ⟨"m", Json.null, Json.null, TransformType.decimal,
         ⟨RuleType.greater_than, JsNum.fin ⟨1, 0⟩⟩, none⟩
        "raw" "1" true [1, 2]).signature :=
  (hashAndSign_deterministic ⟨fun l => l, fun pk m => pk ++ m⟩
    ⟨1760000000123, []⟩ ⟨1760000000123, [9, 9]⟩
    ⟨"m", Json.null, Json.null, TransformType.decimal,
     ⟨RuleType.greater_than, JsNum.fin ⟨1, 0⟩⟩, none⟩
    "raw" "1" true [1, 2] rfl).2.2

/-- C4 counterexample: the `decimal` transform does *not* fail on every
non-finite parse — `parseFloat("Infinity")` is `Infinity` (not `NaN`),
so `transformValue` returns the non-finite output `"Infinity"` instead
of failing. -/
theorem transform_decimal_accepts_infinity :
    transformValue "Infinity" TransformType.decimal = Except.ok "Infinity" ∧
    parseFloatJs "Infinity" = JsNum.inf true :=
  ⟨rfl, rfl⟩

/-- C4 amended: the `decimal` transform parses the extracted string
with `parseFloat` and fails exactly when the parse yields `NaN`;
otherwise it returns the parsed number stringified (including the
infinities). -/
theorem transform_decimal_nan_only (s : String) :
    transformValue s TransformType.decimal =
      (if (parseFloatJs s).isNaN = true then
        Except.error ("Cannot parse \"" ++ s ++ "\" as decimal")
      else Except.ok (jsNumToString (parseFloatJs s))) := rfl

/-- C10: `evaluateRule` is total for the three declared rule types, and
a parsed value whose float parse is `NaN` makes every comparison
(`>`, `<`, `===`) return `false` — a malformed value yields a false
verdict, not an error. -/
theorem evaluateRule_nan_false (v : String) (r : Rule)
    (h : parseFloatJs v = JsNum.nan) : evaluateRule v r = false := by
  obtain ⟨t, val⟩ := r
  show (match t with
    | RuleType.greater_than => JsNum.gt (parseFloatJs v) val
    | RuleType.less_than => JsNum.lt (parseFloatJs v) val
    | RuleType.equals => JsNum.eqJs (parseFloatJs v) val) = false
  rw [h]
  cases t <;> cases val <;> rfl

/-- Witness for C10 at a malformed parsed value. -/
theorem evaluateRule_nan_false_witness :
    evaluateRule "abc" ⟨RuleType.greater_than, JsNum.fin ⟨5, 0⟩⟩ = false :=
  evaluateRule_nan_false "abc" ⟨RuleType.greater_than, JsNum.fin ⟨5, 0⟩⟩ rfl

/-- C6: the score transforms parse the extracted string as JSON and
coerce its `home`/`away` fields with `Number`; both fail when the
string is not valid JSON, both fail when either field coerces to `NaN`,
and otherwise `score_diff`/`score_sum` return `home - away` /
`home + away` stringified (JS arithmetic). -/
theorem score_transforms (s : String) :
    (jsonParse s = none →
      transformValue s TransformType.score_diff =
        Except.error ("Cannot parse score object: \"" ++ s ++ "\"") ∧
      transformValue s TransformType.score_sum =
        Except.error ("Cannot parse score object: \"" ++ s ++ "\"")) ∧
    (∀ j, jsonParse s = some j →
      ((toNumberJson (getField j "home")).isNaN
        || (toNumberJson (getField j "away")).isNaN) = true →
      (transformValue s TransformType.score_diff).isOk = false ∧
      (transformValue s TransformType.score_sum).isOk = false) ∧
    (∀ j, jsonParse s = some j →
      (toNumberJson (getField j "home")).isNaN = false →
      (toNumberJson (getField j "away")).isNaN = false →
      transformValue s TransformType.score_diff =
        Except.ok (jsNumToString (JsNum.sub (toNumberJson (getField j "home"))
          (toNumberJson (getField j "away")))) ∧
      transformValue s TransformType.score_sum =
        Except.ok (jsNumToString (JsNum.add (toNumberJson (getField j "home"))
          (toNumberJson (getField j "away"))))) := by
  refine ⟨fun h => ?_, fun j hj hnan => ?_, fun j hj h1 h2 => ?_⟩
  · constructor <;> simp [transformValue, parseScore, h, Except.map]
  · constructor <;>
      simp [transformValue, parseScore, hj, hnan, Except.map, Except.isOk, Except.toBool]
  · constructor <;> simp [transformValue, parseScore, hj, h1, h2, Except.map]

/-- Witness for C6: `score_diff` on `{"home":2,"away":1}` yields `"1"`,
`score_sum` yields `"3"`. -/
theorem score_transforms_witness :
    transformValue "\x7b\"home\":2,\"away\":1\x7d" TransformType.score_diff =
      Except.ok "1" ∧
    transformValue "\x7b\"home\":2,\"away\":1\x7d" TransformType.score_sum =
      Except.ok "3" := by
  have h := (score_transforms "\x7b\"home\":2,\"away\":1\x7d").2.2
    (Json.obj [("home", Json.num (JsNum.fin ⟨2, 0⟩)),
               ("away", Json.num (JsNum.fin ⟨1, 0⟩))]) rfl rfl rfl
  exact ⟨h.1.trans rfl, h.2.trans rfl⟩

/-- C7: JSONPath extraction parses the raw response as JSON (failing
with a parse error on invalid JSON), fails with a no-results error on
an empty result set, and otherwise returns only the *first* match —
serialized with `JSON.stringify` when it is of JS type `"object"`
(objects, arrays, `null`), stringified with `String(...)` otherwise —
independently of any later matches. -/
theorem extract_first_match (jp : String → Json → List Json)
    (runScript : String → String → Except String String)
    (raw path : String) :
    (jsonParse raw = none →
      extractValue jp runScript raw (Extraction.jsonpath path) =
        Except.error "JSON.parse: invalid JSON in raw response") ∧
    (∀ data, jsonParse raw = some data → jp path data = [] →
      extractValue jp runScript raw (Extraction.jsonpath path) =
        Except.error ("JSONPath \"" ++ path ++ "\" returned no results")) ∧
    (∀ data v rest, jsonParse raw = some data → jp path data = v :: rest →
      extractValue jp runScript raw (Extraction.jsonpath path) =
        Except.ok (match v with
          | Json.obj _ => jsonStringify v
          | Json.arr _ => jsonStringify v
          | Json.null => jsonStringify v
          | _ => jsStringOf v)) := by
  refine ⟨fun h => ?_, fun data hd he => ?_, fun data v rest hd hv => ?_⟩
  · simp [extractValue, h]
  · simp [extractValue, hd, he]
  · simp only [extractValue, hd, hv]
    cases v <;> rfl

/-- Witness for C7: a query matching three elements returns only the
first, stringified. -/
theorem extract_first_match_witness :
    extractValue
      (fun _ _ => [Json.num (JsNum.fin ⟨1, 0⟩), Json.num (JsNum.fin ⟨2, 0⟩),
        Json.num (JsNum.fin ⟨3, 0⟩)])
      (fun _ _ => Except.error "unused") "[1,2,3]"
      (Extraction.jsonpath "$[*]") = Except.ok "1" := by
  have h := (extract_first_match
    (fun _ _ => [Json.num (JsNum.fin ⟨1, 0⟩), Json.num (JsNum.fin ⟨2, 0⟩),
      Json.num (JsNum.fin ⟨3, 0⟩)])
    (fun _ _ => Except.error "unused") "[1,2,3]" "$[*]").2.2
    (Json.arr [Json.num (JsNum.fin ⟨1, 0⟩), Json.num (JsNum.fin ⟨2, 0⟩),
      Json.num (JsNum.fin ⟨3, 0⟩)])
    (Json.num (JsNum.fin ⟨1, 0⟩))
    [Json.num (JsNum.fin ⟨2, 0⟩), Json.num (JsNum.fin ⟨3, 0⟩)] rfl rfl
  exact h.trans rfl

/-- A successful row keeps the substituted market id. -/
theorem rowSpec_ok_marketId (t : TemplateSpec) (i : Nat) (s : ResolutionSpec)
    (h : rowSpec t i = Except.ok s) :
    s.marketId = substStr (buildReplacements t.params i) t.marketIdTemplate := by
  simp only [rowSpec] at h
  cases hrv : rowRuleValue t.ruleValue (buildReplacements t.params i) i with
  | error e => rw [hrv] at h; exact absurd h (by simp)
  | ok rv =>
      rw [hrv] at h
      injection h with h2
      rw [← h2]

/-- A row succeeds exactly when its rule value resolves. -/
theorem rowSpec_isOk (t : TemplateSpec) (i : Nat) :
    (rowSpec t i).isOk =
      (rowRuleValue t.ruleValue (buildReplacements t.params i) i).isOk := by
  simp only [rowSpec]
  cases hrv : rowRuleValue t.ruleValue (buildReplacements t.params i) i <;>
    simp [hrv, Except.isOk, Except.toBool]

/-- If every row succeeds, the row loop returns one spec per row, in
order. -/
theorem expandRows_ok (t : TemplateSpec) (l : List Nat)
    (h : ∀ i ∈ l, (rowSpec t i).isOk = true) :
    ∃ out, expandRows t l = Except.ok out ∧ out.length = l.length ∧
      ∀ k (hk : k < l.length) (hk2 : k < out.length),
        rowSpec t (l.get ⟨k, hk⟩) = Except.ok (out.get ⟨k, hk2⟩) := by
  induction l with
  | nil =>
      refine ⟨[], rfl, rfl, ?_⟩
      intro k hk
      exact absurd hk (Nat.not_lt_zero k)
  | cons x xs ih =>
      have hx := h x (List.mem_cons_self x xs)
      cases hfx : rowSpec t x with
      | error e => rw [hfx] at hx; simp [Except.isOk, Except.toBool] at hx
      | ok s =>
          obtain ⟨out, hout, hlen, hget⟩ :=
            ih (fun y hy => h y (List.mem_cons_of_mem x hy))
          refine ⟨s :: out, ?_, by simp [hlen], ?_⟩
          · unfold expandRows
            rw [hfx, hout]
          · intro k hk hk2
            cases k with
            | zero => simpa using hfx
            | succ n =>
                have hn : n < xs.length := by simpa using hk
                have hn2 : n < out.length := by simpa using hk2
                simpa using hget n hn hn2

/-- If any row fails, the whole row loop fails. -/
theorem expandRows_error (t : TemplateSpec) (l : List Nat)
    (h : ∃ i ∈ l, (rowSpec t i).isOk = false) :
    (expandRows t l).isOk = false := by
  induction l with
  | nil =>
      obtain ⟨i, hi, _⟩ := h
      exact absurd hi (List.not_mem_nil i)
  | cons x xs ih =>
      obtain ⟨i, hi, hio⟩ := h
      unfold expandRows
      cases hfx : rowSpec t x with
      | error e => simp [Except.isOk, Except.toBool]
      | ok s =>
          rcases List.mem_cons.mp hi with rfl | hmem
          · rw [hfx] at hio
            simp [Except.isOk, Except.toBool] at hio
          · have hstep := ih ⟨i, hmem, hio⟩
            cases hrest : expandRows t xs with
            | error e => simp [Except.isOk, Except.toBool]
            | ok out =>
                rw [hrest] at hstep
                simp [Except.isOk, Except.toBool] at hstep

/-- C3 counterexample: (a) a `{placeholder}` not naming any declared
parameter survives substitution, so the returned `marketId` is not
placeholder-free; (b) with all params of equal length, a rule-value
string that substitutes to a non-number aborts the whole expansion, so
fewer than `N` specs are returned. -/
theorem expandTemplate_not_placeholder_free :
    expandTemplate
      { marketIdTemplate := "\x7bunused\x7d", source := Json.null,
        extraction := Json.null, transform := TransformType.decimal,
        ruleType := RuleType.greater_than,
        ruleValue := TRuleValue.rnum (JsNum.fin ⟨1, 0⟩), timestampRule := none,
        params := [("a", [ParamVal.pstr "x"])] } =
      Except.ok [(⟨"\x7bunused\x7d", Json.null, Json.null,
        TransformType.decimal, ⟨RuleType.greater_than, JsNum.fin ⟨1, 0⟩⟩,
        none⟩ : ResolutionSpec)] ∧
    expandTemplate
      { marketIdTemplate := "m", source := Json.null,
        extraction := Json.null, transform := TransformType.decimal,
        ruleType := RuleType.greater_than,
        ruleValue := TRuleValue.rstr "\x7bv\x7d", timestampRule := none,
        params := [("v", [ParamVal.pstr "abc"])] } =
      Except.error
        "rule.value \"\x7bv\x7d\" substituted to \"abc\" which is not a number (row 0)" :=
  ⟨rfl, rfl⟩

/-- C3 amended: with non-empty params, expansion fails with a
descriptive error when any `params[i].values` length differs from
`params[0].values`; when all lengths equal `N` *and every row's rule
value resolves*, it returns exactly `N` specs — never truncating or
padding — each with `marketId` obtained by substituting every declared
parameter placeholder (placeholders naming no declared parameter
survive verbatim). -/
theorem expandTemplate_row_count (t : TemplateSpec)
    (p0 : String × List ParamVal) (rest : List (String × List ParamVal))
    (hp : t.params = p0 :: rest) :
    ((∃ p ∈ t.params, p.2.length ≠ p0.2.length) →
      ∃ e, expandTemplate t = Except.error e) ∧
    ((∀ p ∈ t.params, p.2.length = p0.2.length) →
      (∀ i, i < p0.2.length →
        (rowRuleValue t.ruleValue (buildReplacements t.params i) i).isOk = true) →
      ∃ specs, expandTemplate t = Except.ok specs ∧
        specs.length = p0.2.length ∧
        ∀ k (hk : k < specs.length),
          (specs.get ⟨k, hk⟩).marketId =
            substStr (buildReplacements t.params k) t.marketIdTemplate) := by
  constructor
  · intro hex
    have hsome : (t.params.find? (fun p => p.2.length != p0.2.length)).isSome = true := by
      rw [List.find?_isSome]
      obtain ⟨p, hmem, hne⟩ := hex
      exact ⟨p, hmem, by simpa using hne⟩
    cases hfind : t.params.find? (fun p => p.2.length != p0.2.length) with
    | none => rw [hfind] at hsome; simp at hsome
    | some q =>
        refine ⟨mismatchMessage q.1 q.2.length p0.2.length, ?_⟩
        unfold expandTemplate
        rw [hp]
        simp only
        rw [hp] at hfind
        rw [hfind]
  · intro hall hrows
    have hnone : t.params.find? (fun p => p.2.length != p0.2.length) = none := by
      rw [List.find?_eq_none]
      intro p hmem
      simp [hall p hmem]
    have hok : ∀ i ∈ List.range p0.2.length, (rowSpec t i).isOk = true := by
      intro i hi
      rw [rowSpec_isOk]
      exact hrows i (List.mem_range.mp hi)
    obtain ⟨out, hout, hlen, hget⟩ := expandRows_ok t (List.range p0.2.length) hok
    refine ⟨out, ?_, by simpa using hlen, ?_⟩
    · unfold expandTemplate
      rw [hp]
      simp only
      rw [hp] at hnone
      rw [hnone, hout]
    · intro k hk
      have hk1 : k < (List.range p0.2.length).length := by
        simpa [hlen] using hk
      have hspec := hget k hk1 hk
      have hkr : (List.range p0.2.length).get ⟨k, hk1⟩ = k := List.get_range k hk1
      rw [hkr] at hspec
      exact rowSpec_ok_marketId t k (out.get ⟨k, hk⟩) hspec

/-- Witness for C3: a mismatched template fails; an equal-length
two-row template expands to exactly two specs. -/
theorem expandTemplate_row_count_witness :
    (∃ e, expandTemplate
      { marketIdTemplate := "m-\x7ba\x7d", source := Json.null,
        extraction := Json.null, transform := TransformType.decimal,
        ruleType := RuleType.greater_than,
        ruleValue := TRuleValue.rnum (JsNum.fin ⟨1, 0⟩), timestampRule := none,
        params := [("a", [ParamVal.pstr "1"]), ("b", [])] } = Except.error e) ∧
    (∃ specs, expandTemplate
      { marketIdTemplate := "m-\x7ba\x7d", source := Json.null,
        extraction := Json.null, transform := TransformType.decimal,
        ruleType := RuleType.greater_than,
        ruleValue := TRuleValue.rnum (JsNum.fin ⟨1, 0⟩), timestampRule := none,
        params := [("a", [ParamVal.pstr "1", ParamVal.pstr "2"])] } =
        Except.ok specs ∧ specs.length = 2) := by
  constructor
  · exact (expandTemplate_row_count _ ("a", [ParamVal.pstr "1"]) [("b", [])] rfl).1
      ⟨("b", []), List.mem_cons_of_mem _ (List.mem_cons_self _ _), by decide⟩
  · obtain ⟨specs, hok, hlen, _⟩ :=
      (expandTemplate_row_count
        { marketIdTemplate := "m-\x7ba\x7d", source := Json.null,
          extraction := Json.null, transform := TransformType.decimal,
          ruleType := RuleType.greater_than,
          ruleValue := TRuleValue.rnum (JsNum.fin ⟨1, 0⟩), timestampRule := none,
          params := [("a", [ParamVal.pstr "1", ParamVal.pstr "2"])] }
        ("a", [ParamVal.pstr "1", ParamVal.pstr "2"]) [] rfl).2
        (by decide) (by decide)
    exact ⟨specs, hok, hlen⟩

/-- C5 counterexample: a string rule value `"Infinity"` parses to the
non-finite `Infinity` (— `parseFloat` yields it and `isNaN` is false —)
and the expansion *succeeds*, copying a non-finite rule value into the
spec instead of failing. -/
theorem expandTemplate_accepts_infinite_rule_value :
    expandTemplate
      { marketIdTemplate := "m", source := Json.null, extraction := Json.null,
        transform := TransformType.decimal, ruleType := RuleType.greater_than,
        ruleValue := TRuleValue.rstr "Infinity", timestampRule := none,
        params := [("a", [ParamVal.pstr "x"])] } =
      Except.ok [(⟨"m", Json.null, Json.null, TransformType.decimal,
        ⟨RuleType.greater_than, JsNum.inf true⟩, none⟩ : ResolutionSpec)] ∧
    parseFloatJs "Infinity" = JsNum.inf true :=
  ⟨rfl, rfl⟩

/-- C5 amended: a numeric template rule value is copied verbatim; a
string rule value is substituted and parsed with `parseFloat`, the
*whole* expansion failing exactly when the parse yields `NaN` (a
non-NaN, possibly infinite parse is accepted as-is). -/
theorem rule_value_resolution (n : JsNum) (s : String)
    (repl : List (String × ParamVal)) (i : Nat) (t : TemplateSpec)
    (p0 : String × List ParamVal) (rest : List (String × List ParamVal))
    (hp : t.params = p0 :: rest) :
    (rowRuleValue (TRuleValue.rnum n) repl i = Except.ok n) ∧
    ((parseFloatJs (substStr repl s)).isNaN = true →
      rowRuleValue (TRuleValue.rstr s) repl i =
        Except.error ("rule.value \"" ++ s ++ "\" substituted to \""
          ++ substStr repl s ++ "\" which is not a number (row "
          ++ toString i ++ ")")) ∧
    ((parseFloatJs (substStr repl s)).isNaN = false →
      rowRuleValue (TRuleValue.rstr s) repl i =
        Except.ok (parseFloatJs (substStr repl s))) ∧
    ((∃ k, k < p0.2.length ∧ (rowSpec t k).isOk = false) →
      (expandTemplate t).isOk = false) := by
  refine ⟨rfl, fun h => ?_, fun h => ?_, fun hex => ?_⟩
  · simp [rowRuleValue, h]
  · simp [rowRuleValue, h]
  · obtain ⟨k, hk, hko⟩ := hex
    unfold expandTemplate
    rw [hp]
    simp only
    cases hq : List.find? (fun p => p.2.length != p0.2.length) rest with
    | some q => simp [hq, Except.isOk, Except.toBool]
    | none =>
        have hred : List.find? (fun p => p.2.length != p0.2.length) (p0 :: rest) =
            List.find? (fun p => p.2.length != p0.2.length) rest := by
          simp [List.find?_cons]
        rw [hred, hq]
        exact expandRows_error t (List.range p0.2.length)
          ⟨k, List.mem_range.mpr hk, hko⟩

/-- Witness for C5: a placeholder rule value substituting to a
non-number aborts a whole concrete expansion. -/
theorem rule_value_resolution_witness :
    rowRuleValue (TRuleValue.rstr "\x7bv\x7d") [("v", ParamVal.pstr "abc")] 0 =
      Except.error
        "rule.value \"\x7bv\x7d\" substituted to \"abc\" which is not a number (row 0)" ∧
    (expandTemplate
      { marketIdTemplate := "m", source := Json.null, extraction := Json.null,
        transform := TransformType.decimal, ruleType := RuleType.greater_than,
        ruleValue := TRuleValue.rstr "\x7bv\x7d", timestampRule := none,
        params := [("v", [ParamVal.pstr "abc"])] }).isOk = false := by
  have h := rule_value_resolution (JsNum.fin ⟨0, 0⟩) "\x7bv\x7d"
    [("v", ParamVal.pstr "abc")] 0
    { marketIdTemplate := "m", source := Json.null, extraction := Json.null,
      transform := TransformType.decimal, ruleType := RuleType.greater_than,
      ruleValue := TRuleValue.rstr "\x7bv\x7d", timestampRule := none,
      params := [("v", [ParamVal.pstr "abc"])] }
    ("v", [ParamVal.pstr "abc"]) [] rfl
  exact ⟨h.2.1 rfl, h.2.2.2 ⟨0, by decide, by decide⟩⟩

/-- Membership in a conditional singleton list. -/
theorem mem_ite_singleton {α : Type} (a x : α) (b : Prop) [Decidable b] :
    a ∈ (if b then [x] else []) ↔ b ∧ a = x := by
  split_ifs with h <;> simp [h]

/-- C8 counterexample: a script referencing the timer `setTimeout`
produces *no* warning (and no error) — timers are not in the
validator denylist. -/
theorem validateScript_timer_not_warned :
    validateScriptExtraction "javascript"
      "function extract(r) \x7b return setTimeout(r, 1000); \x7d" none = ([], []) ∧
    scanPat (fun cs => (matchLit "setTimeout".data cs).isSome) false
      "function extract(r) \x7b return setTimeout(r, 1000); \x7d".data = true :=
  ⟨rfl, rfl⟩

/-- The missing-extract error message is never a syntax-error message,
whatever the engine text. -/
theorem declErr_ne_synErr (m : String) :
    "extraction.code must define an extract() function" ≠
      "extraction.code has syntax error: " ++ m := by
  intro h
  have hd := congrArg String.data h
  rw [String.data_append] at hd
  have h16 := congrArg (fun (l : List Char) => l[16]?) hd
  simp at h16

/-- C8 amended: for a non-empty script body the validator reports the
missing-`extract` *error* exactly when no lexical declaration pattern
matches; it emits each denylist *warning* (never an error) exactly when
the corresponding regex matches — and the denylist covers module
loading (`require(`, `import`), network (`fetch(`) and
process/environment (`process.`) but no timers: every warning is one of
those four. -/
theorem validateScript_denylist (lang code : String) (jsSyntax : Option String)
    (hc : code ≠ "") :
    (("extraction.code must define an extract() function"
        ∈ (validateScriptExtraction lang code jsSyntax).1) ↔
      declaresExtract code = false) ∧
    (("extraction.code contains require() — this will fail in the sandbox"
        ∈ (validateScriptExtraction lang code jsSyntax).2) ↔
      hasRequireCall code = true) ∧
    (("extraction.code contains import — this will fail in the sandbox"
        ∈ (validateScriptExtraction lang code jsSyntax).2) ↔
      hasImportKw code = true) ∧
    (("extraction.code contains fetch() — this will fail in the sandbox"
        ∈ (validateScriptExtraction lang code jsSyntax).2) ↔
      hasFetchCall code = true) ∧
    (("extraction.code references process — this will fail in the sandbox"
        ∈ (validateScriptExtraction lang code jsSyntax).2) ↔
      hasProcessDot code = true) ∧
    (∀ w ∈ (validateScriptExtraction lang code jsSyntax).2,
      w = "extraction.code contains require() — this will fail in the sandbox" ∨
      w = "extraction.code contains import — this will fail in the sandbox" ∨
      w = "extraction.code contains fetch() — this will fail in the sandbox" ∨
      w = "extraction.code references process — this will fail in the sandbox") := by
  cases jsSyntax with
  | none =>
      refine ⟨?_, ?_, ?_, ?_, ?_, ?_⟩
      · simp +decide [validateScriptExtraction, hc, mem_ite_singleton,
          List.mem_append, Bool.not_eq_true']
      · simp +decide [validateScriptExtraction, hc, mem_ite_singleton,
          List.mem_append]
      · simp +decide [validateScriptExtraction, hc, mem_ite_singleton,
          List.mem_append]
      · simp +decide [validateScriptExtraction, hc, mem_ite_singleton,
          List.mem_append]
      · simp +decide [validateScriptExtraction, hc, mem_ite_singleton,
          List.mem_append]
      · intro w hw
        simp only [validateScriptExtraction, if_neg hc, List.mem_append,
          mem_ite_singleton] at hw
        rcases hw with ((h | h) | h) | h <;> simp [h.2]
  | some m =>
      refine ⟨?_, ?_, ?_, ?_, ?_, ?_⟩
      · simp +decide [validateScriptExtraction, hc, mem_ite_singleton,
          List.mem_append, Bool.not_eq_true', declErr_ne_synErr m]
      · simp +decide [validateScriptExtraction, hc, mem_ite_singleton,
          List.mem_append]
      · simp +decide [validateScriptExtraction, hc, mem_ite_singleton,
          List.mem_append]
      · simp +decide [validateScriptExtraction, hc, mem_ite_singleton,
          List.mem_append]
      · simp +decide [validateScriptExtraction, hc, mem_ite_singleton,
          List.mem_append]
      · intro w hw
        simp only [validateScriptExtraction, if_neg hc, List.mem_append,
          mem_ite_singleton] at hw
        rcases hw with ((h | h) | h) | h <;> simp [h.2]

/-- Witness for C8: a concrete script declaring `extract` and calling
`require` gets the require warning. -/
theorem validateScript_denylist_witness :
    "extraction.code contains require() — this will fail in the sandbox"
      ∈ (validateScriptExtraction "javascript"
          "const extract = 1; require(\"x\")" none).2 :=
  ((validateScript_denylist "javascript" "const extract = 1; require(\"x\")"
      none (by decide)).2.1).mpr rfl

example :
    (expandTemplateH 32
      ⟨1, [(0, HObj.hmap [("type", HVal.hstr "decimal")])]⟩
      { marketIdTemplate := "m-\x7ba\x7d", source := HVal.hstr "x",
        extraction := HVal.hstr "y", transform := HVal.href 0,
        ruleType := RuleType.greater_than,
        ruleValue := TRuleValue.rnum (JsNum.fin ⟨1, 0⟩), timestampRule := none,
        params := [("a", [ParamVal.pstr "1", ParamVal.pstr "2"])] }) =
    Except.ok (⟨1, [(0, HObj.hmap [("type", HVal.hstr "decimal")])]⟩,
      [⟨"m-1", HVal.hstr "x", HVal.hstr "y", HVal.href 0,
        ⟨RuleType.greater_than, JsNum.fin ⟨1, 0⟩⟩, none⟩,
       ⟨"m-2", HVal.hstr "x", HVal.hstr "y", HVal.href 0,
        ⟨RuleType.greater_than, JsNum.fin ⟨1, 0⟩⟩, none⟩]) := rfl

/-- Store extension: the new store keeps every old cell untouched and
adds only cells at fresh addresses. -/
def ExtFrom (σ σ2 : Store) : Prop :=
  σ.next ≤ σ2.next ∧ ∃ pre, σ2.mem = pre ++ σ.mem ∧ ∀ p ∈ pre, σ.next ≤ p.1

/-- Extension is reflexive. -/
theorem extFrom_refl (σ : Store) : ExtFrom σ σ :=
  ⟨Nat.le_refl _, [], rfl, by simp⟩

/-- Extension is transitive. -/
theorem extFrom_trans {σ1 σ2 σ3 : Store} (h12 : ExtFrom σ1 σ2)
    (h23 : ExtFrom σ2 σ3) : ExtFrom σ1 σ3 := by
  obtain ⟨hn12, pre12, hm12, hp12⟩ := h12
  obtain ⟨hn23, pre23, hm23, hp23⟩ := h23
  refine ⟨Nat.le_trans hn12 hn23, pre23 ++ pre12, ?_, ?_⟩
  · rw [hm23, hm12, List.append_assoc]
  · intro p hp
    rcases List.mem_append.mp hp with h | h
    · exact Nat.le_trans hn12 (hp23 p h)
    · exact hp12 p h

/-- Reads below the old allocation counter are unchanged by an
extension. -/
theorem lookup_extFrom {σ σ2 : Store} (h : ExtFrom σ σ2) {a : Nat}
    (ha : a < σ.next) : σ2.lookup a = σ.lookup a := by
  obtain ⟨hn, pre, hm, hp⟩ := h
  unfold Store.lookup
  rw [hm, List.find?_append]
  have hnone : pre.find? (fun p => p.1 == a) = none := by
    rw [List.find?_eq_none]
    intro p hmem
    have := hp p hmem
    simp only [beq_iff_eq]
    omega
  rw [hnone]
  rfl

/-- Allocation preserves well-formedness. -/
theorem wf_alloc {σ : Store} {o : HObj} (h : WfStore σ) :
    WfStore (σ.alloc o).1 := by
  intro p hp
  rcases List.mem_cons.mp hp with rfl | hmem
  · exact Nat.lt_succ_self _
  · exact Nat.lt_succ_of_lt (h p hmem)

/-- Allocation is an extension. -/
theorem extFrom_alloc (σ : Store) (o : HObj) : ExtFrom σ (σ.alloc o).1 :=
  ⟨Nat.le_succ _, [(σ.next, o)], rfl, by simp⟩

/-- In-place update preserves well-formedness (addresses are kept). -/
theorem wf_update {σ : Store} {a : Nat} {o : HObj} (h : WfStore σ) :
    WfStore (σ.update a o) := by
  intro p hp
  obtain ⟨q, hq, hfq⟩ := List.mem_map.mp hp
  by_cases hqa : (q.1 == a) = true
  · rw [if_pos hqa] at hfq
    have hqe := beq_iff_eq.mp hqa
    rw [← hfq]
    simpa [← hqe] using h q hq
  · rw [if_neg hqa] at hfq
    rw [← hfq]
    exact h q hq

/-- Updating a *fresh* address (at or above the old counter) is still an
extension of the old store: old cells cannot be hit. -/
theorem extFrom_update {σ σ1 : Store} {a : Nat} {o : HObj}
    (hwf : WfStore σ) (h : ExtFrom σ σ1) (ha : σ.next ≤ a) :
    ExtFrom σ (σ1.update a o) := by
  obtain ⟨hn, pre, hm, hp⟩ := h
  refine ⟨hn, pre.map (fun p => if p.1 == a then (a, o) else p), ?_, ?_⟩
  · show σ1.mem.map _ = _
    rw [hm, List.map_append]
    congr 1
    have hid : ∀ p ∈ σ.mem, (if p.1 == a then (a, o) else p) = p := by
      intro p hmem
      have := hwf p hmem
      rw [if_neg]
      simp only [beq_iff_eq]
      omega
    calc σ.mem.map (fun p => if p.1 == a then (a, o) else p)
        = σ.mem.map id := List.map_congr_left hid
      _ = σ.mem := List.map_id σ.mem
  · intro p hpm
    obtain ⟨q, hq, hfq⟩ := List.mem_map.mp hpm
    by_cases hqa : (q.1 == a) = true
    · rw [if_pos hqa] at hfq
      rw [← hfq]
      exact ha
    · rw [if_neg hqa] at hfq
      rw [← hfq]
      exact hp q hq

/-- The accumulator fold used by `substH` to rebuild array items and
object members preserves well-formedness and extension. -/
theorem foldl_store_ext {γ δ : Type} (f : Store → γ → Store × δ)
    (hf : ∀ σ x, WfStore σ → ExtFrom σ (f σ x).1 ∧ WfStore (f σ x).1)
    (l : List γ) :
    ∀ (σ : Store) (acc : List δ), WfStore σ →
      ExtFrom σ (l.foldl (fun acc x =>
        let s := f acc.1 x
        (s.1, acc.2 ++ [s.2])) (σ, acc)).1 ∧
      WfStore (l.foldl (fun acc x =>
        let s := f acc.1 x
        (s.1, acc.2 ++ [s.2])) (σ, acc)).1 := by
  induction l with
  | nil => intro σ acc hwf; exact ⟨extFrom_refl σ, hwf⟩
  | cons x xs ih =>
      intro σ acc hwf
      obtain ⟨hx1, hx2⟩ := hf σ x hwf
      obtain ⟨hr1, hr2⟩ := ih (f σ x).1 (acc ++ [(f σ x).2]) hx2
      exact ⟨extFrom_trans hx1 hr1, hr2⟩

/-- `substituteParams` at the reference level only allocates: the
result store extends the input store (no old cell is written), stays
well-formed, and any reference it returns is either freshly allocated
or was already dangling. -/
theorem substH_ext (fuel : Nat) :
    ∀ (repl : List (String × ParamVal)) (σ : Store) (v : HVal), WfStore σ →
      ExtFrom σ (substH repl fuel σ v).1 ∧ WfStore (substH repl fuel σ v).1 ∧
      (∀ a, (substH repl fuel σ v).2 = HVal.href a →
        σ.next ≤ a ∨ (substH repl fuel σ v).1.lookup a = none) := by
  induction fuel with
  | zero =>
      intro repl σ v hwf
      refine ⟨extFrom_refl σ, hwf, ?_⟩
      intro a ha
      simp [substH] at ha
  | succ m ih =>
      intro repl σ v hwf
      cases v with
      | hstr s =>
          exact ⟨extFrom_refl σ, hwf, fun a ha => by simp [substH] at ha⟩
      | hnum n =>
          exact ⟨extFrom_refl σ, hwf, fun a ha => by simp [substH] at ha⟩
      | hbool b =>
          exact ⟨extFrom_refl σ, hwf, fun a ha => by simp [substH] at ha⟩
      | hnull =>
          exact ⟨extFrom_refl σ, hwf, fun a ha => by simp [substH] at ha⟩
      | hundef =>
          exact ⟨extFrom_refl σ, hwf, fun a ha => by simp [substH] at ha⟩
      | href a0 =>
          cases hl : σ.lookup a0 with
          | none =>
              simp only [substH, hl]
              refine ⟨extFrom_refl σ, hwf, ?_⟩
              intro a ha
              injection ha with h0
              right
              rw [← h0]
              exact hl
          | some obj =>
              cases obj with
              | harr items =>
                  simp only [substH, hl]
                  have hfold := foldl_store_ext (fun σ v => substH repl m σ v)
                    (fun σ x hw => ⟨(ih repl σ x hw).1, (ih repl σ x hw).2.1⟩)
                    items σ [] hwf
                  refine ⟨extFrom_trans hfold.1 (extFrom_alloc _ _),
                    wf_alloc hfold.2, ?_⟩
                  intro a ha
                  injection ha with h0
                  left
                  rw [← h0]
                  exact hfold.1.1
              | hmap fs =>
                  simp only [substH, hl]
                  have hfold := foldl_store_ext
                    (fun σ kv => ((substH repl m σ (Prod.snd kv)).1,
                      (Prod.fst kv, (substH repl m σ (Prod.snd kv)).2)))
                    (fun σ x hw => ⟨(ih repl σ x.2 hw).1, (ih repl σ x.2 hw).2.1⟩)
                    fs σ [] hwf
                  refine ⟨extFrom_trans hfold.1 (extFrom_alloc _ _),
                    wf_alloc hfold.2, ?_⟩
                  intro a ha
                  injection ha with h0
                  left
                  rw [← h0]
                  exact hfold.1.1

/-- The query re-coercion step writes only the freshly copied source
cell (or nothing): starting from a copy reference that is fresh or
dangling, the store after coercion still extends the original store and
stays well-formed. -/
theorem applyQueryCoercionH_ext {σ0 σ : Store} (v : HVal)
    (hwf0 : WfStore σ0) (hwf : WfStore σ) (hext : ExtFrom σ0 σ)
    (hv : ∀ a, v = HVal.href a → σ0.next ≤ a ∨ σ.lookup a = none) :
    ExtFrom σ0 (applyQueryCoercionH σ v).1 ∧
    WfStore (applyQueryCoercionH σ v).1 := by
  cases v with
  | hstr s => exact ⟨hext, hwf⟩
  | hnum n => exact ⟨hext, hwf⟩
  | hbool b => exact ⟨hext, hwf⟩
  | hnull => exact ⟨hext, hwf⟩
  | hundef => exact ⟨hext, hwf⟩
  | href a =>
      have ha : σ0.next ≤ a ∨ σ.lookup a = none := hv a rfl
      cases hl : σ.lookup a with
      | none => simp only [applyQueryCoercionH, hl]; exact ⟨hext, hwf⟩
      | some obj =>
          have hfresh : σ0.next ≤ a := by
            rcases ha with h | h
            · exact h
            · rw [hl] at h; exact absurd h (by simp)
          cases obj with
          | harr items =>
              simp only [applyQueryCoercionH, hl]
              exact ⟨hext, hwf⟩
          | hmap fs =>
              simp only [applyQueryCoercionH, hl]
              by_cases hhttp : isHttpSourceH fs = true
              · rw [if_pos hhttp]
                cases hq : ((fs.reverse.find? (fun p => p.1 == "query")).map
                    Prod.snd) with
                | none => exact ⟨hext, hwf⟩
                | some qv =>
                    cases qv with
                    | hstr s => exact ⟨hext, hwf⟩
                    | hnum n => exact ⟨hext, hwf⟩
                    | hbool b => exact ⟨hext, hwf⟩
                    | hnull => exact ⟨hext, hwf⟩
                    | hundef => exact ⟨hext, hwf⟩
                    | href q =>
                        cases hlq : σ.lookup q with
                        | none => simp only [hlq]; exact ⟨hext, hwf⟩
                        | some qobj =>
                            cases qobj with
                            | harr qitems => simp only [hlq]; exact ⟨hext, hwf⟩
                            | hmap qs =>
                                simp only [hlq]
                                refine ⟨?_, wf_update (wf_alloc hwf)⟩
                                exact extFrom_update hwf0
                                  (extFrom_trans hext (extFrom_alloc _ _)) hfresh
              · rw [if_neg hhttp]
                exact ⟨hext, hwf⟩

/-- A successful reference-level row only allocates fresh cells and
writes only its own fresh source copy — the result store extends the
input store — and its `transform` field is the template's own
reference (`const transform = template.transform`). -/
theorem rowSpecH_ext (fuel : Nat) (t : HTemplate) (σ : Store) (i : Nat)
    (σ2 : Store) (spec : HSpec) (hwf : WfStore σ)
    (hok : rowSpecH fuel t σ i = Except.ok (σ2, spec)) :
    ExtFrom σ σ2 ∧ WfStore σ2 ∧ spec.transform = t.transform := by
  simp only [rowSpecH] at hok
  cases hrv : rowRuleValue t.ruleValue (buildReplacements t.params i) i with
  | error e => rw [hrv] at hok; exact absurd hok (by simp)
  | ok rv =>
      rw [hrv] at hok
      injection hok with hpair
      cases hpair
      have hsrc := substH_ext fuel (buildReplacements t.params i) σ t.source hwf
      have hextr := substH_ext fuel (buildReplacements t.params i)
        (substH (buildReplacements t.params i) fuel σ t.source).1
        t.extraction hsrc.2.1
      have hv : ∀ a,
          (substH (buildReplacements t.params i) fuel σ t.source).2 = HVal.href a →
          σ.next ≤ a ∨
          (substH (buildReplacements t.params i) fuel
            (substH (buildReplacements t.params i) fuel σ t.source).1
            t.extraction).1.lookup a = none := by
        intro a ha
        rcases hsrc.2.2 a ha with h | h
        · exact Or.inl h
        · by_cases hlt :
            a < (substH (buildReplacements t.params i) fuel σ t.source).1.next
          · right
            rw [lookup_extFrom hextr.1 hlt]
            exact h
          · left
            exact Nat.le_trans hsrc.1.1 (Nat.le_of_not_lt hlt)
      have hq := applyQueryCoercionH_ext
        (substH (buildReplacements t.params i) fuel σ t.source).2 hwf
        hextr.2.1 (extFrom_trans hsrc.1 hextr.1) hv
      cases htr : t.timestampRule with
      | none =>
          simp only [htr]
          exact ⟨hq.1, hq.2, trivial⟩
      | some tsr =>
          simp only [htr]
          have hts := substH_ext fuel (buildReplacements t.params i)
            (applyQueryCoercionH
              (substH (buildReplacements t.params i) fuel
                (substH (buildReplacements t.params i) fuel σ t.source).1
                t.extraction).1
              (substH (buildReplacements t.params i) fuel σ t.source).2).1
            tsr hq.2
          exact ⟨extFrom_trans hq.1 hts.1, hts.2.1, trivial⟩

/-- The reference-level row loop only extends the store, and every spec
it accumulates aliases the template's transform. -/
theorem expandRowsH_ext (fuel : Nat) (t : HTemplate) (l : List Nat) :
    ∀ (σ σ2 : Store) (acc : List HSpec), WfStore σ →
      expandRowsH fuel t σ l = Except.ok (σ2, acc) →
      ExtFrom σ σ2 ∧ WfStore σ2 ∧ ∀ s ∈ acc, s.transform = t.transform := by
  induction l with
  | nil =>
      intro σ σ2 acc hwf hok
      simp only [expandRowsH] at hok
      injection hok with hpair
      cases hpair
      exact ⟨extFrom_refl σ, hwf, by simp⟩
  | cons i rest ih =>
      intro σ σ2 acc hwf hok
      simp only [expandRowsH] at hok
      cases hrow : rowSpecH fuel t σ i with
      | error e =>
          simp only [hrow] at hok
          exact absurd hok (by simp)
      | ok r =>
          simp only [hrow] at hok
          cases hrest : expandRowsH fuel t r.1 rest with
          | error e =>
              simp only [hrest] at hok
              exact absurd hok (by simp)
          | ok r2 =>
              simp only [hrest] at hok
              injection hok with hpair
              cases hpair
              obtain ⟨hr1, hr2, hr3⟩ :=
                rowSpecH_ext fuel t σ i r.1 r.2 hwf hrow
              obtain ⟨hq1, hq2, hq3⟩ := ih r.1 r2.1 r2.2 hr2 hrest
              refine ⟨extFrom_trans hr1 hq1, hq2, ?_⟩
              intro s hs
              rcases List.mem_cons.mp hs with rfl | hmem
              · exact hr3
              · exact hq3 s hmem

/-- C9 amended: `expandTemplate` treats the template as read-only —
every store cell existing before the call reads the same afterwards (in
particular the template and anything it references are not mutated),
and the substituted `source`/`extraction`/`timestampRule` structures
are freshly allocated copies; however the `transform` field of *every*
returned spec is the template's own transform reference, shared rather
than copied. -/
theorem expandTemplateH_no_mutation (fuel : Nat) (σ σ2 : Store)
    (t : HTemplate) (specs : List HSpec) (hwf : WfStore σ)
    (hok : expandTemplateH fuel σ t = Except.ok (σ2, specs)) :
    (∀ a, a < σ.next → σ2.lookup a = σ.lookup a) ∧
    (∀ s ∈ specs, s.transform = t.transform) := by
  unfold expandTemplateH at hok
  cases hp : t.params with
  | nil =>
      rw [hp] at hok
      injection hok with hpair
      cases hpair
      exact ⟨fun a _ => rfl, by simp⟩
  | cons p0 rest =>
      rw [hp] at hok
      simp only at hok
      cases hfind : (p0 :: rest).find? (fun p => p.2.length != p0.2.length) with
      | some q =>
          rw [hfind] at hok
          exact absurd hok (by simp)
      | none =>
          rw [hfind] at hok
          obtain ⟨h1, h2, h3⟩ :=
            expandRowsH_ext fuel t (List.range p0.2.length) σ σ2 specs hwf hok
          exact ⟨fun a ha => lookup_extFrom h1 ha, h3⟩

/-- C9 counterexample: the returned specs are not built purely from
copies — both expanded specs and the template share the *same*
transform reference (address 0), so one in-place write through the
first returned spec's transform changes what the template's transform
(and the second spec's) reads: the read through the template flips from
`"decimal"` to `"score_sum"`. -/
theorem expandTemplateH_transform_aliased :
    expandTemplateH 32
      ⟨1, [(0, HObj.hmap [("type", HVal.hstr "decimal")])]⟩
      { marketIdTemplate := "m-\x7ba\x7d", source := HVal.hstr "x",
        extraction := HVal.hstr "y", transform := HVal.href 0,
        ruleType := RuleType.greater_than,
        ruleValue := TRuleValue.rnum (JsNum.fin ⟨1, 0⟩), timestampRule := none,
        params := [("a", [ParamVal.pstr "1", ParamVal.pstr "2"])] } =
      Except.ok (⟨1, [(0, HObj.hmap [("type", HVal.hstr "decimal")])]⟩,
        [⟨"m-1", HVal.hstr "x", HVal.hstr "y", HVal.href 0,
          ⟨RuleType.greater_than, JsNum.fin ⟨1, 0⟩⟩, none⟩,
         ⟨"m-2", HVal.hstr "x", HVal.hstr "y", HVal.href 0,
          ⟨RuleType.greater_than, JsNum.fin ⟨1, 0⟩⟩, none⟩]) ∧
    hreadField ⟨1, [(0, HObj.hmap [("type", HVal.hstr "decimal")])]⟩
      (HVal.href 0) "type" = some (HVal.hstr "decimal") ∧
    hreadField
      (hwriteField ⟨1, [(0, HObj.hmap [("type", HVal.hstr "decimal")])]⟩
        (HVal.href 0) "type" (HVal.hstr "score_sum"))
      (HVal.href 0) "type" = some (HVal.hstr "score_sum") :=
  ⟨rfl, rfl, rfl⟩

/-- Witness for C9 at a concrete store and template: the pre-existing
cell 0 reads the same after expansion, and every returned spec aliases
the template transform. -/
theorem expandTemplateH_no_mutation_witness :
    (match expandTemplateH 32
      ⟨1, [(0, HObj.hmap [("type", HVal.hstr "decimal")])]⟩
      { marketIdTemplate := "m-\x7ba\x7d", source := HVal.hstr "x",
        extraction := HVal.hstr "y", transform := HVal.href 0,
        ruleType := RuleType.greater_than,
        ruleValue := TRuleValue.rnum (JsNum.fin ⟨1, 0⟩), timestampRule := none,
        params := [("a", [ParamVal.pstr "1", ParamVal.pstr "2"])] } with
     | Except.ok (σ2, specs) =>
        σ2.lookup 0 =
          Store.lookup ⟨1, [(0, HObj.hmap [("type", HVal.hstr "decimal")])]⟩ 0 ∧
        specs.all (fun s => s.transform == HVal.href 0) = true
     | Except.error _ => False) := by
  have h := expandTemplateH_no_mutation 32
    ⟨1, [(0, HObj.hmap [("type", HVal.hstr "decimal")])]⟩
    ⟨1, [(0, HObj.hmap [("type", HVal.hstr "decimal")])]⟩
    { marketIdTemplate := "m-\x7ba\x7d", source := HVal.hstr "x",
      extraction := HVal.hstr "y", transform := HVal.href 0,
      ruleType := RuleType.greater_than,
      ruleValue := TRuleValue.rnum (JsNum.fin ⟨1, 0⟩), timestampRule := none,
      params := [("a", [ParamVal.pstr "1", ParamVal.pstr "2"])] }
    [⟨"m-1", HVal.hstr "x", HVal.hstr "y", HVal.href 0,
      ⟨RuleType.greater_than, JsNum.fin ⟨1, 0⟩⟩, none⟩,
     ⟨"m-2", HVal.hstr "x", HVal.hstr "y", HVal.href 0,
      ⟨RuleType.greater_than, JsNum.fin ⟨1, 0⟩⟩, none⟩]
    (by unfold WfStore; decide) rfl
  refine ⟨h.1 0 (by decide), ?_⟩
  rw [List.all_eq_true]
  intro s hs
  exact beq_iff_eq.mpr (h.2 s hs)
